import Mathlib

/-!
Verification of the migration engine core (migrate.go) together with the
in-memory stub database driver.  The Go code is shallowly embedded:

* goroutine/channel pipelines are sequentialized — a planner produces the
  full list of channel items (the channel is FIFO and the runner consumes
  it in order), and the runner folds over that list threading the
  database-driver state;
* the cooperative stop signal is modelled two ways: the `stop()` method is
  transcribed as a function on the engine's stop state, while the planner
  and runner loops receive the per-check results of `stop()` as a boolean
  oracle (the sequentialization of reading the shared stop state while a
  signal may be delivered concurrently);
* loops over the sparse version index are given explicit fuel; the
  top-level entry points instantiate the fuel with a bound (number of
  known versions + 1) that the characterization lemmas prove sufficient;
* machine integers: Go `int` becomes `Int`, Go `uint` becomes `Nat`
  (values stay tiny, no overflow is reachable);
* fallible calls return `Except`/`Option`.
-/

/-- Error taxonomy of the core: the named sentinel errors of migrate.go
(ErrNoChange, ErrNilVersion, ErrLocked, ErrShortLimit), `os.ErrNotExist`,
opaque driver errors carrying their message, and the multi-error composing
a primary error with an unlock error. -/
inductive Err : Type where
  | noChange : Err
  | nilVersion : Err
  | locked : Err
  | notExist : Err
  | shortLimit (short : Nat) : Err
  | driver (msg : String) : Err
  | multi (primary unlockFailure : Err) : Err
deriving DecidableEq, Repr

/-- Error message of each error, as rendered by `Error()` in Go.
Modelled from the spec for MultiError (not under src/): "its string form
concatenates both with a separator". -/
def Err.message : Err → String
  | .noChange => "no change"
  | .nilVersion => "no migration"
  | .locked => "database locked"
  | .notExist => "file does not exist"
  | .shortLimit s => "limit " ++ toString s ++ " short"
  | .driver msg => msg
  | .multi a b => a.message ++ " and " ++ b.message

/-- Modelled from the spec: `NewMultiError` (util.go is not under src/)
composes the primary error, when there is one, with the unlock error. -/
def NewMultiError (primary : Option Err) (unlockFailure : Err) : Err :=
  match primary with
  | some p => .multi p unlockFailure
  | none => unlockFailure

/-- Modelled from the spec: a source driver (source drivers are not under
src/; §4.1 gives their contract).  `versions` is the ordered sparse index
of known versions; `upBody v`/`downBody v` are the payloads (`none` means
the artifact for that direction is absent, i.e. ReadUp/ReadDown yield
`os.ErrNotExist`); `upErr v`/`downErr v` inject generic I/O errors into
ReadUp/ReadDown. -/
structure SourceDrv : Type where
  versions : List Nat
  upBody : Nat → Option String
  downBody : Nat → Option String
  upErr : Nat → Option String
  downErr : Nat → Option String

/-- Modelled from the spec: `First()` — smallest known version, or
NotExist. -/
def SourceDrv.First (s : SourceDrv) : Except Err Nat :=
  match s.versions.head? with
  | some f => .ok f
  | none => .error .notExist

/-- Modelled from the spec: `Next(v)` — strictly next known version after
`v`, or NotExist.  For a sorted index this is the head of the strictly
greater elements. -/
def SourceDrv.Next (s : SourceDrv) (v : Nat) : Except Err Nat :=
  match (s.versions.filter (fun w => v < w)).head? with
  | some n => .ok n
  | none => .error .notExist

/-- Modelled from the spec: `Prev(v)` — strictly previous known version
before `v`, or NotExist. -/
def SourceDrv.Prev (s : SourceDrv) (v : Nat) : Except Err Nat :=
  match (s.versions.filter (fun w => w < v)).getLast? with
  | some p => .ok p
  | none => .error .notExist

/-- Modelled from the spec: `ReadUp(v)` — the up payload stream for `v`,
a NotExist condition, or a generic I/O error. -/
def SourceDrv.ReadUp (s : SourceDrv) (v : Nat) : Except Err String :=
  match s.upErr v with
  | some msg => .error (.driver msg)
  | none =>
    match s.upBody v with
    | some b => .ok b
    | none => .error .notExist

/-- Modelled from the spec: `ReadDown(v)` — the down payload stream for
`v`, a NotExist condition, or a generic I/O error. -/
def SourceDrv.ReadDown (s : SourceDrv) (v : Nat) : Except Err String :=
  match s.downErr v with
  | some msg => .error (.driver msg)
  | none =>
    match s.downBody v with
    | some b => .ok b
    | none => .error .notExist

/-- Modelled from the spec: the Migration record (migration.go is not
under src/).  `body = none` is the "empty migration"; buffering yields the
same bytes as the stream, so body and buffered body are identified. -/
structure Migration : Type where
  version : Nat
  targetVersion : Int
  body : Option String
deriving DecidableEq, Repr

/-- Modelled from the spec: `NewMigration` — construction of a migration
record from a payload (or absence), version and target version.  Timing
and buffering are not observable in this embedding. -/
def NewMigration (body : Option String) (version : Nat) (targetVersion : Int) : Migration :=
  { version := version, targetVersion := targetVersion, body := body }

/-- A value sent into the planner's output channel.  The Go channel is
`chan interface{}`; `other` stands for any value that is neither an error
nor a `*Migration` (the runner's `default:` branch panics on those). -/
inductive Item : Type where
  | err (e : Err) : Item
  | migr (mg : Migration) : Item
  | other (tag : String) : Item
deriving DecidableEq, Repr

/-- Behavior of the database driver: error injections for each capability,
per the database contract.  All `none`/`fun _ => none` is exactly the
in-memory Stub driver of src/unnamed/part_000. -/
structure DBBehavior : Type where
  lockErr : Option String
  unlockErr : Option String
  versionErr : Option String
  dropErr : Option String
  runErr : Int → Option String

/-- Mutable state of the (instrumented stub) database driver:
`version`/`migrationSequence`/`dbIsLocked` transcribe the Stub's
`CurrentVersion`/`MigrationSequence`/`IsLocked`; `runLog` records every
`Run(targetVersion, body)` call and `lockCalls`/`unlockCalls` count the
`Lock`/`Unlock` calls (the counting mock of the spec's lock-discipline
property). -/
structure DBState : Type where
  version : Int
  migrationSequence : List String
  runLog : List (Int × Option String)
  lockCalls : Nat
  unlockCalls : Nat
  dbIsLocked : Bool
deriving DecidableEq, Repr

/-- Stub.Lock (src/unnamed/part_000) with error injection: every call is
counted; a failing or already-locked driver refuses, otherwise the
driver-side flag is set. -/
def DB.lock (b : DBBehavior) (st : DBState) : Option Err × DBState :=
  let st1 := { st with lockCalls := st.lockCalls + 1 }
  match b.lockErr with
  | some msg => (some (.driver msg), st1)
  | none =>
    if st1.dbIsLocked then (some .locked, st1)
    else (none, { st1 with dbIsLocked := true })

/-- Stub.Unlock with error injection: every call is counted; on failure
the driver-side flag is left as-is. -/
def DB.unlock (b : DBBehavior) (st : DBState) : Option Err × DBState :=
  let st1 := { st with unlockCalls := st.unlockCalls + 1 }
  match b.unlockErr with
  | some msg => (some (.driver msg), st1)
  | none => (none, { st1 with dbIsLocked := false })

/-- Stub.Version with error injection: NilVersion (-1) when no migration
was ever applied. -/
def DB.version (b : DBBehavior) (st : DBState) : Except Err Int :=
  match b.versionErr with
  | some msg => .error (.driver msg)
  | none => .ok (if st.version < 0 then -1 else st.version)

/-- Stub.Run with error injection: the call is always recorded in the run
log; on success the driver records the new version and, when a body is
present, appends it to the observed migration sequence. -/
def DB.run (b : DBBehavior) (st : DBState) (targetVersion : Int) (body : Option String) :
    Option Err × DBState :=
  let st1 := { st with runLog := st.runLog ++ [(targetVersion, body)] }
  match b.runErr targetVersion with
  | some msg => (some (.driver msg), st1)
  | none =>
    (none, { st1 with
              version := targetVersion,
              migrationSequence :=
                match body with
                | some bo => st1.migrationSequence ++ [bo]
                | none => st1.migrationSequence })

/-- Stub.Drop with error injection: wipes the version and appends the DROP
marker to the observed sequence. -/
def DB.drop (b : DBBehavior) (st : DBState) : Option Err × DBState :=
  match b.dropErr with
  | some msg => (some (.driver msg), st)
  | none =>
    (none, { st with version := -1, migrationSequence := st.migrationSequence ++ ["DROP"] })

/-- The engine (struct Migrate): the source driver handle and the
process-local `isLocked` flag.  The database driver's state is threaded
separately, as in Go where it is a distinct object. -/
structure Migrate : Type where
  src : SourceDrv
  isLocked : Bool

/-- The engine's stop-signal state: the latched `isGracefulStop` flag plus
whether the one-shot `GracefulStop` channel currently holds a pending
send. -/
structure StopState : Type where
  isGracefulStop : Bool
  pendingSignal : Bool
deriving DecidableEq, Repr

/-- stop() of migrate.go: true if the sticky bit is set, else consume a
pending signal (latching the bit), else false. -/
def Migrate.stop (ss : StopState) : Bool × StopState :=
  if ss.isGracefulStop then (true, ss)
  else if ss.pendingSignal then (true, { isGracefulStop := true, pendingSignal := false })
  else (false, ss)

/-- The all-false stop oracle: no stop signal is ever pending during the
operation. -/
def noStop : Nat → Bool := fun _ => false

/-- versionExists of migrate.go: try ReadUp, then ReadDown; a success
means the version is present; a NotExist from both yields
`os.ErrNotExist`; a generic error is returned verbatim. -/
def Migrate.versionExists (s : SourceDrv) (version : Nat) : Option Err :=
  match s.ReadUp version with
  | .ok _ => none
  | .error e =>
    if e = .notExist then
      match s.ReadDown version with
      | .ok _ => none
      | .error e2 => if e2 = .notExist then some .notExist else some e2
    else some e

/-- newMigration of migrate.go: an up step (target ≥ version) reads the up
payload, a down step reads the down payload; a NotExist payload yields the
"empty" migration, a generic read error aborts record construction. -/
def Migrate.newMigration (s : SourceDrv) (version : Nat) (targetVersion : Int) :
    Except Err Migration :=
  if (version : Int) ≤ targetVersion then
    match s.ReadUp version with
    | .error e =>
      if e = .notExist then .ok (NewMigration none version targetVersion)
      else .error e
    | .ok body => .ok (NewMigration (some body) version targetVersion)
  else
    match s.ReadDown version with
    | .error e =>
      if e = .notExist then .ok (NewMigration none version targetVersion)
      else .error e
    | .ok body => .ok (NewMigration (some body) version targetVersion)

/-- The `for from < to` loop of the upward branch of read():
each iteration observes cancellation, asks the source for the next
version, builds its record and emits it; any error is emitted and ends
the plan.  `i` indexes the stop-oracle. -/
def Migrate.readLoopUp (s : SourceDrv) (stopO : Nat → Bool) :
    Nat → Int → Int → Nat → List Item
  | 0, _, _, _ => []
  | fuel + 1, frm, tgt, i =>
    if frm < tgt then
      if stopO i then []
      else
        match s.Next frm.toNat with
        | .error e => [.err e]
        | .ok nxt =>
          match Migrate.newMigration s nxt (Int.ofNat nxt) with
          | .error e => [.err e]
          | .ok mg => .migr mg :: Migrate.readLoopUp s stopO fuel (Int.ofNat nxt) tgt (i + 1)
    else []

/-- The `for from > to && from >= 0` loop of the downward branch of
read(): a NotExist from Prev with target -1 emits the final record taking
the database to the empty state; otherwise errors are emitted verbatim. -/
def Migrate.readLoopDown (s : SourceDrv) (stopO : Nat → Bool) :
    Nat → Int → Int → Nat → List Item
  | 0, _, _, _ => []
  | fuel + 1, frm, tgt, i =>
    if tgt < frm ∧ 0 ≤ frm then
      if stopO i then []
      else
        match s.Prev frm.toNat with
        | .error e =>
          if e = .notExist ∧ tgt = -1 then
            match Migrate.newMigration s frm.toNat (-1) with
            | .error e2 => [.err e2]
            | .ok mg => [.migr mg]
          else [.err e]
        | .ok p =>
          match Migrate.newMigration s frm.toNat (Int.ofNat p) with
          | .error e => [.err e]
          | .ok mg => .migr mg :: Migrate.readLoopDown s stopO fuel (Int.ofNat p) tgt (i + 1)
    else []

/-- read() of migrate.go — the absolute planner used by Migrate(to):
presence checks on `from` and `to`, the no-change check, then the upward
or downward enumeration. -/
def Migrate.read (s : SourceDrv) (stopO : Nat → Bool) (frm tgt : Int) : List Item :=
  if 0 ≤ frm ∧ Migrate.versionExists s frm.toNat ≠ none then [.err .notExist]
  else if 0 ≤ tgt ∧ Migrate.versionExists s tgt.toNat ≠ none then [.err .notExist]
  else if frm = tgt then [.err .noChange]
  else if frm < tgt then
    if frm = -1 then
      match s.First with
      | .error e => [.err e]
      | .ok f =>
        match Migrate.newMigration s f (Int.ofNat f) with
        | .error e => [.err e]
        | .ok mg =>
          .migr mg :: Migrate.readLoopUp s stopO (s.versions.length + 1) (Int.ofNat f) tgt 0
    else Migrate.readLoopUp s stopO (s.versions.length + 1) frm tgt 0
  else Migrate.readLoopDown s stopO (s.versions.length + 1) frm tgt 0

/-- The main loop of readUp(): loop while `count < limit || limit == -1`;
each iteration observes cancellation, handles the nil-version entry via
First(), and otherwise advances via Next(), with the four-way NotExist
dispatch (NoChange / silent end / NotExist / ShortLimit) of
migrate.go lines 400-425.  The stop-oracle is indexed by `count`, which
increases exactly once per continuing iteration. -/
def Migrate.readUpLoop (s : SourceDrv) (stopO : Nat → Bool) :
    Nat → Int → Int → Nat → List Item
  | 0, _, _, _ => []
  | fuel + 1, frm, limit, count =>
    if (count : Int) < limit ∨ limit = -1 then
      if stopO count then []
      else if frm = -1 then
        match s.First with
        | .error e => [.err e]
        | .ok f =>
          match Migrate.newMigration s f (Int.ofNat f) with
          | .error e => [.err e]
          | .ok mg =>
            .migr mg :: Migrate.readUpLoop s stopO fuel (Int.ofNat f) limit (count + 1)
      else
        match s.Next frm.toNat with
        | .error e =>
          if e = .notExist then
            if limit = -1 ∧ count = 0 then [.err .noChange]
            else if limit = -1 then []
            else if 0 < limit ∧ count = 0 then [.err .notExist]
            else if (count : Int) < limit then
              [.err (.shortLimit (limit - count).toNat)]
            else [.err e]
          else [.err e]
        | .ok nxt =>
          match Migrate.newMigration s nxt (Int.ofNat nxt) with
          | .error e => [.err e]
          | .ok mg =>
            .migr mg :: Migrate.readUpLoop s stopO fuel (Int.ofNat nxt) limit (count + 1)
    else []

/-- readUp() of migrate.go — the relative up planner used by Up()
(limit = -1) and Steps(n > 0): the `from`-presence check, then the
`limit == 0` no-change check, then the loop. -/
def Migrate.readUp (s : SourceDrv) (stopO : Nat → Bool) (frm limit : Int) : List Item :=
  if 0 ≤ frm ∧ Migrate.versionExists s frm.toNat ≠ none then [.err .notExist]
  else if limit = 0 then [.err .noChange]
  else Migrate.readUpLoop s stopO (s.versions.length + 1) frm limit 0

/-- The main loop of readDown(): loop while `count < limit || limit = -1`;
a NotExist from Prev emits, when the limit allows, the final record built
from First() with target -1, then a ShortLimit if the count fell short. -/
def Migrate.readDownLoop (s : SourceDrv) (stopO : Nat → Bool) :
    Nat → Int → Int → Nat → List Item
  | 0, _, _, _ => []
  | fuel + 1, frm, limit, count =>
    if (count : Int) < limit ∨ limit = -1 then
      if stopO count then []
      else
        match s.Prev frm.toNat with
        | .error e =>
          if e = .notExist then
            if limit = -1 ∨ 0 < limit - (count : Int) then
              match s.First with
              | .error e2 => [.err e2]
              | .ok f =>
                match Migrate.newMigration s f (-1) with
                | .error e2 => [.err e2]
                | .ok mg =>
                  .migr mg ::
                    (if ((count : Int) + 1) < limit then
                      [.err (.shortLimit (limit - ((count : Int) + 1)).toNat)]
                    else [])
            else if (count : Int) < limit then
              [.err (.shortLimit (limit - count).toNat)]
            else []
          else [.err e]
        | .ok p =>
          match Migrate.newMigration s frm.toNat (Int.ofNat p) with
          | .error e => [.err e]
          | .ok mg =>
            .migr mg :: Migrate.readDownLoop s stopO fuel (Int.ofNat p) limit (count + 1)
    else []

/-- readDown() of migrate.go — the relative down planner used by Down()
(limit = -1) and Steps(n < 0): the `from`-presence check, the
`limit == 0` check, the two nil-version checks, then the loop. -/
def Migrate.readDown (s : SourceDrv) (stopO : Nat → Bool) (frm limit : Int) : List Item :=
  if 0 ≤ frm ∧ Migrate.versionExists s frm.toNat ≠ none then [.err .notExist]
  else if limit = 0 then [.err .noChange]
  else if frm = -1 ∧ limit = -1 then [.err .noChange]
  else if frm = -1 ∧ 0 < limit then [.err .notExist]
  else Migrate.readDownLoop s stopO (s.versions.length + 1) frm limit 0

/-- Outcome of runMigrations: a nil return, an error return, or the
`panic("unknown type")` of its `default:` branch. -/
inductive RunOutcome : Type where
  | ok : RunOutcome
  | fail (e : Err) : RunOutcome
  | panicked : RunOutcome
deriving DecidableEq, Repr

/-- runMigrations of migrate.go: consume the channel; observe cancellation
before each element (a stop returns nil); an error element is returned;
a migration is applied via `Run(targetVersion, body)` and a driver error
is returned; any other element panics.  The stop-oracle index `i` counts
the completed Run calls. -/
def Migrate.runMigrations (stopO : Nat → Bool) (b : DBBehavior) :
    DBState → Nat → List Item → RunOutcome × DBState
  | st, _, [] => (.ok, st)
  | st, i, item :: rest =>
    if stopO i then (.ok, st)
    else
      match item with
      | .err e => (.fail e, st)
      | .migr mg =>
        match DB.run b st mg.targetVersion mg.body with
        | (some e, st1) => (.fail e, st1)
        | (none, st1) => Migrate.runMigrations stopO b st1 (i + 1) rest
      | .other _ => (.panicked, st)

/-- lock() of migrate.go: under the process-local mutex, if the engine
does not hold the lock, call driver Lock and set the flag on success;
otherwise return ErrLocked without touching the driver. -/
def Migrate.lock (e : Migrate) (b : DBBehavior) (st : DBState) :
    Option Err × Migrate × DBState :=
  if e.isLocked then (some .locked, e, st)
  else
    match DB.lock b st with
    | (some err, st1) => (some err, e, st1)
    | (none, st1) => (none, { e with isLocked := true }, st1)

/-- unlock() of migrate.go: call driver Unlock; on driver error the flag
remains set and the error is returned; on success the flag is cleared. -/
def Migrate.unlock (e : Migrate) (b : DBBehavior) (st : DBState) :
    Option Err × Migrate × DBState :=
  match DB.unlock b st with
  | (some err, st1) => (some err, e, st1)
  | (none, st1) => (none, { e with isLocked := false }, st1)

/-- unlockErr() of migrate.go: release the lock and compose an unlock
failure with the primary error. -/
def Migrate.unlockErr (e : Migrate) (b : DBBehavior) (st : DBState) (prevErr : Option Err) :
    Option Err × Migrate × DBState :=
  match Migrate.unlock e b st with
  | (some err, e1, st1) => (some (NewMultiError prevErr err), e1, st1)
  | (none, e1, st1) => (prevErr, e1, st1)

/-- Result of a public engine operation: a returned error-or-nil, or a
crash of the runner's panic (on which the lock is never released). -/
inductive OpResult : Type where
  | ret (e : Option Err) : OpResult
  | panicked : OpResult
deriving DecidableEq, Repr

/-- The shared tail `return m.unlockErr(m.runMigrations(ret))` of the four
planning operations: run the planned items, then release the lock
composing errors — unless the runner panicked, in which case the function
never returns. -/
def Migrate.runThenUnlock (e : Migrate) (b : DBBehavior) (st : DBState)
    (stopOR : Nat → Bool) (items : List Item) : OpResult × Migrate × DBState :=
  match Migrate.runMigrations stopOR b st 0 items with
  | (.panicked, st1) => (.panicked, e, st1)
  | (.ok, st1) =>
    match Migrate.unlockErr e b st1 none with
    | (r, e1, st2) => (.ret r, e1, st2)
  | (.fail er, st1) =>
    match Migrate.unlockErr e b st1 (some er) with
    | (r, e1, st2) => (.ret r, e1, st2)

/-- Migrate(version) of migrate.go: lock, query the current version, plan
with read(cur, version), run, unlock.  `stopOP`/`stopOR` are the stop
oracles seen by the planner and the runner. -/
def Migrate.MigrateTo (e : Migrate) (b : DBBehavior) (st : DBState)
    (stopOP stopOR : Nat → Bool) (version : Nat) : OpResult × Migrate × DBState :=
  match Migrate.lock e b st with
  | (some err, e1, st1) => (.ret (some err), e1, st1)
  | (none, e1, st1) =>
    match DB.version b st1 with
    | .error err =>
      match Migrate.unlockErr e1 b st1 (some err) with
      | (r, e2, st2) => (.ret r, e2, st2)
    | .ok cur =>
      Migrate.runThenUnlock e1 b st1 stopOR
        (Migrate.read e.src stopOP cur (Int.ofNat version))

/-- Steps(n) of migrate.go: n = 0 returns ErrNoChange before any driver
call; n > 0 plans with readUp(cur, n), n < 0 with readDown(cur, -n). -/
def Migrate.Steps (e : Migrate) (b : DBBehavior) (st : DBState)
    (stopOP stopOR : Nat → Bool) (n : Int) : OpResult × Migrate × DBState :=
  if n = 0 then (.ret (some .noChange), e, st)
  else
    match Migrate.lock e b st with
    | (some err, e1, st1) => (.ret (some err), e1, st1)
    | (none, e1, st1) =>
      match DB.version b st1 with
      | .error err =>
        match Migrate.unlockErr e1 b st1 (some err) with
        | (r, e2, st2) => (.ret r, e2, st2)
      | .ok cur =>
        Migrate.runThenUnlock e1 b st1 stopOR
          (if 0 < n then Migrate.readUp e.src stopOP cur n
           else Migrate.readDown e.src stopOP cur (-n))

/-- Up() of migrate.go: plan with readUp(cur, -1). -/
def Migrate.Up (e : Migrate) (b : DBBehavior) (st : DBState)
    (stopOP stopOR : Nat → Bool) : OpResult × Migrate × DBState :=
  match Migrate.lock e b st with
  | (some err, e1, st1) => (.ret (some err), e1, st1)
  | (none, e1, st1) =>
    match DB.version b st1 with
    | .error err =>
      match Migrate.unlockErr e1 b st1 (some err) with
      | (r, e2, st2) => (.ret r, e2, st2)
    | .ok cur =>
      Migrate.runThenUnlock e1 b st1 stopOR (Migrate.readUp e.src stopOP cur (-1))

/-- Down() of migrate.go: plan with readDown(cur, -1). -/
def Migrate.Down (e : Migrate) (b : DBBehavior) (st : DBState)
    (stopOP stopOR : Nat → Bool) : OpResult × Migrate × DBState :=
  match Migrate.lock e b st with
  | (some err, e1, st1) => (.ret (some err), e1, st1)
  | (none, e1, st1) =>
    match DB.version b st1 with
    | .error err =>
      match Migrate.unlockErr e1 b st1 (some err) with
      | (r, e2, st2) => (.ret r, e2, st2)
    | .ok cur =>
      Migrate.runThenUnlock e1 b st1 stopOR (Migrate.readDown e.src stopOP cur (-1))

/-- Drop() of migrate.go: lock, driver Drop, unlock (composing a Drop
error with an unlock error). -/
def Migrate.Drop (e : Migrate) (b : DBBehavior) (st : DBState) :
    OpResult × Migrate × DBState :=
  match Migrate.lock e b st with
  | (some err, e1, st1) => (.ret (some err), e1, st1)
  | (none, e1, st1) =>
    match DB.drop b st1 with
    | (some err, st2) =>
      match Migrate.unlockErr e1 b st2 (some err) with
      | (r, e2, st3) => (.ret r, e2, st3)
    | (none, st2) =>
      match Migrate.unlock e1 b st2 with
      | (r, e2, st3) => (.ret r, e2, st3)


/-! ### Specification-side abbreviations used by the theorems -/

/-- The record the up planner builds for version `w` when ReadUp injects
no generic error: an up step to `w` whose body is the up payload (absent
payload = empty migration). -/
def mkUpRec (s : SourceDrv) (w : Nat) : Migration :=
  { version := w, targetVersion := Int.ofNat w, body := s.upBody w }

/-- The record the down planner builds for version `w` with target `t`
when ReadDown injects no generic error. -/
def mkDownRec (s : SourceDrv) (w : Nat) (t : Int) : Migration :=
  { version := w, targetVersion := t, body := s.downBody w }

/-- The (version, targetVersion) pairs of the full downward walk from `v`:
the strictly smaller known versions are visited in descending order and
the last target is -1. -/
def downPairs (L : List Nat) (v : Nat) : List (Nat × Int) :=
  let R := v :: (L.filter (fun w => w < v)).reverse
  R.zip (R.tail.map Int.ofNat ++ [-1])

/-- The database state after one successful `Run(t, bo)`. -/
def runOkSt (st : DBState) (t : Int) (bo : Option String) : DBState :=
  { st with
    runLog := st.runLog ++ [(t, bo)],
    version := t,
    migrationSequence :=
      match bo with
      | some x => st.migrationSequence ++ [x]
      | none => st.migrationSequence }

/-- The database state after successfully running a list of migrations in
order. -/
def applyMigs (st : DBState) (migs : List Migration) : DBState :=
  migs.foldl (fun a mg => runOkSt a mg.targetVersion mg.body) st

/-- A channel value of one of the two kinds a planner can produce. -/
def Item.known : Item → Prop
  | .err _ => True
  | .migr _ => True
  | .other _ => False

/-- Direction-flip on the instrumented payloads used by the round-trip
property: swaps an up payload of version `v` with the down payload of the
same version. -/
def flipDir (b : String) : String :=
  match b.data with
  | 'u' :: rest => String.mk ('d' :: rest)
  | 'd' :: rest => String.mk ('u' :: rest)
  | _ => b

/-- The stub source over the spec's scenario index {1, 3, 4, 5, 7}, with
up/down payloads present exactly for the indexed versions. -/
def sFix : SourceDrv :=
  { versions := [1, 3, 4, 5, 7]
    upBody := fun w =>
      if w = 1 ∨ w = 3 ∨ w = 4 ∨ w = 5 ∨ w = 7 then some ("u" ++ toString w) else none
    downBody := fun w =>
      if w = 1 ∨ w = 3 ∨ w = 4 ∨ w = 5 ∨ w = 7 then some ("d" ++ toString w) else none
    upErr := fun _ => none
    downErr := fun _ => none }

/-- sFix with a generic I/O error injected into ReadUp(2). -/
def sFixIoErr : SourceDrv :=
  { sFix with upErr := fun w => if w = 2 then some "io boom" else none }

/-- The plain stub database driver: no failures. -/
def bFix : DBBehavior :=
  { lockErr := none, unlockErr := none, versionErr := none, dropErr := none,
    runErr := fun _ => none }

/-- A fresh stub database: empty, never locked, no calls recorded. -/
def stFix : DBState :=
  { version := -1, migrationSequence := [], runLog := [], lockCalls := 0,
    unlockCalls := 0, dbIsLocked := false }

/-- A fresh engine over the scenario source. -/
def eFix : Migrate := { src := sFix, isLocked := false }

/-- Three empty migrations with targets 1, 2, 3, as a runner input. -/
def migsFix : List Migration :=
  [ { version := 1, targetVersion := 1, body := none },
    { version := 2, targetVersion := 2, body := none },
    { version := 3, targetVersion := 3, body := none } ]

/-- sFix with a generic I/O error injected into ReadUp(4). -/
def sFixUp4Err : SourceDrv :=
  { sFix with upErr := fun w => if w = 4 then some "io boom" else none }

/-- sFix with a generic I/O error injected into ReadDown(3). -/
def sFixDown3Err : SourceDrv :=
  { sFix with downErr := fun w => if w = 3 then some "io boom" else none }

/-! ### Lemmas about the lock coordinator -/

theorem unlockErr_fail (e : Migrate) (b : DBBehavior) (st : DBState) (p : Option Err)
    (m2 : String) (h : b.unlockErr = some m2) :
    Migrate.unlockErr e b st p =
      (some (NewMultiError p (.driver m2)), e,
        { st with unlockCalls := st.unlockCalls + 1 }) := by
  simp [Migrate.unlockErr, Migrate.unlock, DB.unlock, h]

theorem unlockErr_ok (e : Migrate) (b : DBBehavior) (st : DBState) (p : Option Err)
    (h : b.unlockErr = none) :
    Migrate.unlockErr e b st p =
      (p, { e with isLocked := false },
        { st with unlockCalls := st.unlockCalls + 1, dbIsLocked := false }) := by
  simp [Migrate.unlockErr, Migrate.unlock, DB.unlock, h]

theorem lock_ok (e : Migrate) (b : DBBehavior) (st : DBState)
    (he : e.isLocked = false) (hb : b.lockErr = none) (hdb : st.dbIsLocked = false) :
    Migrate.lock e b st =
      (none, { e with isLocked := true },
        { st with lockCalls := st.lockCalls + 1, dbIsLocked := true }) := by
  simp [Migrate.lock, DB.lock, he, hb, hdb]

/-- C10: Steps(0) returns ErrNoChange before acquiring the lock: no driver
call is made and the engine and database state are returned untouched. -/
theorem C10_steps_zero (e : Migrate) (b : DBBehavior) (st : DBState)
    (stopOP stopOR : Nat → Bool) :
    Migrate.Steps e b st stopOP stopOR 0 = (.ret (some .noChange), e, st) := by
  simp [Migrate.Steps]

/-- C7: when the primary step of a mutating operation fails (here: the
driver's Version query for the four planning operations, the driver's
Drop for Drop) and the subsequent Unlock also fails, the operation
returns the multi-error composing both, whose message is the
concatenation of both sub-messages — so it contains both — and the
engine-local isLocked flag remains set after the failed unlock. -/
theorem C7_error_composition (e : Migrate) (b : DBBehavior) (st : DBState)
    (stopOP stopOR : Nat → Bool) (m1 m2 : String) (v : Nat) (n : Int)
    (he : e.isLocked = false) (hb : b.lockErr = none) (hdb : st.dbIsLocked = false)
    (hv : b.versionErr = some m1) (hd : b.dropErr = some m1)
    (hu : b.unlockErr = some m2) (hn : n ≠ 0) :
    ((Migrate.MigrateTo e b st stopOP stopOR v).1 =
        .ret (some (.multi (.driver m1) (.driver m2))) ∧
      (Migrate.MigrateTo e b st stopOP stopOR v).2.1.isLocked = true) ∧
    ((Migrate.Steps e b st stopOP stopOR n).1 =
        .ret (some (.multi (.driver m1) (.driver m2))) ∧
      (Migrate.Steps e b st stopOP stopOR n).2.1.isLocked = true) ∧
    ((Migrate.Up e b st stopOP stopOR).1 =
        .ret (some (.multi (.driver m1) (.driver m2))) ∧
      (Migrate.Up e b st stopOP stopOR).2.1.isLocked = true) ∧
    ((Migrate.Down e b st stopOP stopOR).1 =
        .ret (some (.multi (.driver m1) (.driver m2))) ∧
      (Migrate.Down e b st stopOP stopOR).2.1.isLocked = true) ∧
    ((Migrate.Drop e b st).1 =
        .ret (some (.multi (.driver m1) (.driver m2))) ∧
      (Migrate.Drop e b st).2.1.isLocked = true) ∧
    (∀ e1 e2 : Err,
      (Err.multi e1 e2).message = e1.message ++ " and " ++ e2.message ∧
      ∃ mid, (Err.multi e1 e2).message = e1.message ++ mid ++ e2.message) := by
  refine ⟨?_, ?_, ?_, ?_, ?_, ?_⟩
  · rw [Migrate.MigrateTo, lock_ok e b st he hb hdb]
    simp [DB.version, hv, unlockErr_fail _ b _ _ m2 hu, NewMultiError]
  · rw [Migrate.Steps, if_neg hn, lock_ok e b st he hb hdb]
    simp [DB.version, hv, unlockErr_fail _ b _ _ m2 hu, NewMultiError]
  · rw [Migrate.Up, lock_ok e b st he hb hdb]
    simp [DB.version, hv, unlockErr_fail _ b _ _ m2 hu, NewMultiError]
  · rw [Migrate.Down, lock_ok e b st he hb hdb]
    simp [DB.version, hv, unlockErr_fail _ b _ _ m2 hu, NewMultiError]
  · rw [Migrate.Drop, lock_ok e b st he hb hdb]
    simp [DB.drop, hd, unlockErr_fail _ b _ _ m2 hu, NewMultiError]
  · intro e1 e2
    exact ⟨rfl, " and ", by simp [Err.message]⟩

/-- C7 witness: concrete failing Version/Drop plus failing Unlock on the
scenario engine. -/
theorem C7_witness :
    (Migrate.Up eFix
        { bFix with versionErr := some "db down", dropErr := some "db down", unlockErr := some "unlock broke" }
        stFix noStop noStop).1 =
      .ret (some (.multi (.driver "db down") (.driver "unlock broke"))) ∧
    (Migrate.Up eFix
        { bFix with versionErr := some "db down", dropErr := some "db down", unlockErr := some "unlock broke" }
        stFix noStop noStop).2.1.isLocked = true ∧
    (Err.multi (.driver "db down") (.driver "unlock broke")).message =
      "db down" ++ " and " ++ "unlock broke" := by
  have h := C7_error_composition eFix
    { bFix with versionErr := some "db down", dropErr := some "db down", unlockErr := some "unlock broke" }
    stFix noStop noStop "db down" "unlock broke" 4 2
    rfl rfl rfl rfl rfl rfl (by decide)
  exact ⟨h.2.2.1.1, h.2.2.1.2,
    (h.2.2.2.2.2 (.driver "db down") (.driver "unlock broke")).1⟩

/-- C5 counterexample: version 2 is absent from the scenario index, and
readUp(2, 0) / readDown(2, 0) emit NotExist, not NoChange — the
from-presence check is decided before the `limit == 0` check, contrary to
the claim. -/
theorem C5_counterexample :
    Migrate.readUp sFix noStop 2 0 = [Item.err Err.notExist] ∧
    Migrate.readDown sFix noStop 2 0 = [Item.err Err.notExist] ∧
    Migrate.readUp sFix noStop 2 0 ≠ [Item.err Err.noChange] ∧
    Migrate.readDown sFix noStop 2 0 ≠ [Item.err Err.noChange] := by
  refine ⟨by decide, by decide, by decide, by decide⟩

/-- C5 amended: the from-presence check precedes the `limit == 0` check.
With limit 0, readUp and readDown emit exactly one NoChange whenever the
presence check does not fire (from < 0, or the from version is present);
when from ≥ 0 is not present they emit exactly one NotExist instead. -/
theorem C5_amended (s : SourceDrv) (stopO : Nat → Bool) (frm : Int) :
    (¬ 0 ≤ frm ∨ Migrate.versionExists s frm.toNat = none →
      Migrate.readUp s stopO frm 0 = [Item.err Err.noChange] ∧
      Migrate.readDown s stopO frm 0 = [Item.err Err.noChange]) ∧
    (0 ≤ frm → Migrate.versionExists s frm.toNat ≠ none →
      Migrate.readUp s stopO frm 0 = [Item.err Err.notExist] ∧
      Migrate.readDown s stopO frm 0 = [Item.err Err.notExist]) := by
  constructor
  · intro h
    have hc : ¬ (0 ≤ frm ∧ Migrate.versionExists s frm.toNat ≠ none) := by
      rcases h with h | h
      · exact fun hx => h hx.1
      · exact fun hx => hx.2 h
    exact ⟨by simp [Migrate.readUp, hc], by simp [Migrate.readDown, hc]⟩
  · intro h1 h2
    exact ⟨by simp [Migrate.readUp, h1, h2], by simp [Migrate.readDown, h1, h2]⟩

/-- C5 amended witness: version 3 is present, so limit 0 yields NoChange;
version 2 is absent, so limit 0 yields NotExist. -/
theorem C5_witness :
    Migrate.readUp sFix noStop 3 0 = [Item.err Err.noChange] ∧
    Migrate.readDown sFix noStop 3 0 = [Item.err Err.noChange] ∧
    Migrate.readUp sFix noStop 2 0 = [Item.err Err.notExist] := by
  refine ⟨((C5_amended sFix noStop 3).1 (Or.inr (by decide))).1,
    ((C5_amended sFix noStop 3).1 (Or.inr (by decide))).2,
    ((C5_amended sFix noStop 2).2 (by decide) (by decide)).1⟩

/-- C4 counterexample: ReadUp(2) fails with a generic I/O error while the
planner checks that the current version 2 is present.  versionExists
reports that generic error, but readUp/readDown/Steps replace it with
os.ErrNotExist: the generic error never reaches the output channel. -/
theorem C4_counterexample :
    Migrate.versionExists sFixIoErr 2 = some (Err.driver "io boom") ∧
    Migrate.readUp sFixIoErr noStop 2 1 = [Item.err Err.notExist] ∧
    Migrate.readDown sFixIoErr noStop 2 1 = [Item.err Err.notExist] ∧
    (Migrate.Steps { src := sFixIoErr, isLocked := false } bFix
        { stFix with version := 2 } noStop noStop 1).1 = .ret (some Err.notExist) ∧
    Item.err (Err.driver "io boom") ∉ Migrate.readUp sFixIoErr noStop 2 1 := by
  refine ⟨by decide, by decide, by decide, by decide, by decide⟩

/-- C4 amended: a generic source error arising while building a migration
record (outside the presence checks) is propagated verbatim into the
output channel by all three planners — readUp on a generic ReadUp error
for the next version, readDown on a generic ReadDown error for the
current version, and read in both its upward and downward branches; but
any failure of the from-presence check — including a generic I/O error
from ReadUp/ReadDown — is replaced by os.ErrNotExist in read, readUp and
readDown, and likewise any failure of read's to-presence check. -/
theorem C4_amended :
    (∀ (s : SourceDrv) (stopO : Nat → Bool) (frm limit tgt : Int),
      0 ≤ frm → Migrate.versionExists s frm.toNat ≠ none →
      Migrate.readUp s stopO frm limit = [Item.err Err.notExist] ∧
      Migrate.readDown s stopO frm limit = [Item.err Err.notExist] ∧
      Migrate.read s stopO frm tgt = [Item.err Err.notExist]) ∧
    (∀ (s : SourceDrv) (stopO : Nat → Bool) (frm tgt : Int),
      ¬ (0 ≤ frm ∧ Migrate.versionExists s frm.toNat ≠ none) →
      0 ≤ tgt → Migrate.versionExists s tgt.toNat ≠ none →
      Migrate.read s stopO frm tgt = [Item.err Err.notExist]) ∧
    (∀ (s : SourceDrv) (stopO : Nat → Bool) (frm limit : Int) (n : Nat) (msg : String),
      0 ≤ frm → Migrate.versionExists s frm.toNat = none →
      s.Next frm.toNat = .ok n → s.upErr n = some msg →
      (limit = -1 ∨ 0 < limit) → stopO 0 = false →
      Migrate.readUp s stopO frm limit = [Item.err (Err.driver msg)]) ∧
    (∀ (s : SourceDrv) (stopO : Nat → Bool) (frm limit : Int) (p : Nat) (msg : String),
      0 ≤ frm → Migrate.versionExists s frm.toNat = none →
      s.Prev frm.toNat = .ok p → (p : Int) < frm →
      s.downErr frm.toNat = some msg →
      (limit = -1 ∨ 0 < limit) → stopO 0 = false →
      Migrate.readDown s stopO frm limit = [Item.err (Err.driver msg)]) ∧
    (∀ (s : SourceDrv) (stopO : Nat → Bool) (frm tgt : Int) (n : Nat) (msg : String),
      0 ≤ frm → Migrate.versionExists s frm.toNat = none →
      ¬ (0 ≤ tgt ∧ Migrate.versionExists s tgt.toNat ≠ none) →
      frm < tgt → s.Next frm.toNat = .ok n → s.upErr n = some msg → stopO 0 = false →
      Migrate.read s stopO frm tgt = [Item.err (Err.driver msg)]) ∧
    (∀ (s : SourceDrv) (stopO : Nat → Bool) (frm tgt : Int) (p : Nat) (msg : String),
      0 ≤ frm → Migrate.versionExists s frm.toNat = none →
      ¬ (0 ≤ tgt ∧ Migrate.versionExists s tgt.toNat ≠ none) →
      tgt < frm → s.Prev frm.toNat = .ok p → (p : Int) < frm →
      s.downErr frm.toNat = some msg → stopO 0 = false →
      Migrate.read s stopO frm tgt = [Item.err (Err.driver msg)]) := by
  refine ⟨?_, ?_, ?_, ?_, ?_, ?_⟩
  · intro s stopO frm limit tgt h1 h2
    exact ⟨by simp [Migrate.readUp, h1, h2], by simp [Migrate.readDown, h1, h2],
      by simp [Migrate.read, h1, h2]⟩
  · intro s stopO frm tgt h1 h2 h3
    rw [Migrate.read, if_neg h1, if_pos ⟨h2, h3⟩]
  · intro s stopO frm limit n msg h1 h2 hnext herr hlim hO
    have hfrm : ¬ frm = -1 := by omega
    have hlim0 : ¬ limit = 0 := by rcases hlim with h | h <;> omega
    have hcond : ((0 : Nat) : Int) < limit ∨ limit = -1 := by
      rcases hlim with h | h
      · exact Or.inr h
      · exact Or.inl (by exact_mod_cast h)
    rw [Migrate.readUp]
    simp only [h2, ne_eq, not_true_eq_false, and_false, if_false, hlim0, if_neg hlim0]
    rw [Migrate.readUpLoop, if_pos hcond, hO]
    simp only [Bool.false_eq_true, if_false, if_neg hfrm, hnext]
    simp [Migrate.newMigration, SourceDrv.ReadUp, herr]
  · intro s stopO frm limit p msg h1 h2 hprev hp herr hlim hO
    have hfrm : ¬ frm = -1 := by omega
    have hlim0 : ¬ limit = 0 := by rcases hlim with h | h <;> omega
    have hcond : ((0 : Nat) : Int) < limit ∨ limit = -1 := by
      rcases hlim with h | h
      · exact Or.inr h
      · exact Or.inl (by exact_mod_cast h)
    have htn : ((frm.toNat : Int)) = frm := Int.toNat_of_nonneg h1
    rw [Migrate.readDown]
    simp only [h2, ne_eq, not_true_eq_false, and_false, if_false, if_neg hlim0]
    rw [if_neg (by omega : ¬ (frm = -1 ∧ limit = -1)),
      if_neg (by omega : ¬ (frm = -1 ∧ 0 < limit))]
    rw [Migrate.readDownLoop, if_pos hcond, hO]
    simp only [Bool.false_eq_true, if_false, hprev]
    have hdown : ¬ frm ≤ (p : Int) := by omega
    simp [Migrate.newMigration, SourceDrv.ReadDown, herr, hdown, Int.toNat_of_nonneg h1]
  · intro s stopO frm tgt n msg h1 h2 h3 hlt hnext herr hO
    rw [Migrate.read, if_neg (by
        intro hc
        exact hc.2 h2),
      if_neg h3, if_neg (by omega : ¬ frm = tgt), if_pos hlt,
      if_neg (by omega : ¬ frm = -1)]
    rw [Migrate.readLoopUp, if_pos hlt, hO]
    simp only [Bool.false_eq_true, if_false, hnext]
    simp [Migrate.newMigration, SourceDrv.ReadUp, herr]
  · intro s stopO frm tgt p msg h1 h2 h3 hgt hprev hp herr hO
    have htn : ((frm.toNat : Int)) = frm := Int.toNat_of_nonneg h1
    rw [Migrate.read, if_neg (by
        intro hc
        exact hc.2 h2),
      if_neg h3, if_neg (by omega : ¬ frm = tgt), if_neg (by omega : ¬ frm < tgt)]
    rw [Migrate.readLoopDown, if_pos ⟨hgt, h1⟩, hO]
    simp only [Bool.false_eq_true, if_false, hprev]
    have hdown : ¬ frm ≤ (p : Int) := by omega
    simp [Migrate.newMigration, SourceDrv.ReadDown, herr, hdown, Int.toNat_of_nonneg h1]

/-- C4 amended witness: the presence-check replacement at version 2 (from
check) and target 9 (to check), and verbatim propagation of generic
ReadUp(4)/ReadDown(3) errors through readUp, readDown and both branches
of read over the scenario index. -/
theorem C4_witness :
    Migrate.readUp sFixIoErr noStop 2 1 = [Item.err Err.notExist] ∧
    Migrate.read sFix noStop 3 9 = [Item.err Err.notExist] ∧
    Migrate.readUp sFixUp4Err noStop 3 10 = [Item.err (Err.driver "io boom")] ∧
    Migrate.readDown sFixDown3Err noStop 3 1 = [Item.err (Err.driver "io boom")] ∧
    Migrate.read sFixUp4Err noStop 3 7 = [Item.err (Err.driver "io boom")] ∧
    Migrate.read sFixDown3Err noStop 3 1 = [Item.err (Err.driver "io boom")] := by
  refine ⟨(C4_amended.1 sFixIoErr noStop 2 1 0 (by decide) (by decide)).1,
    C4_amended.2.1 sFix noStop 3 9 (by decide) (by decide) (by decide),
    C4_amended.2.2.1 sFixUp4Err noStop 3 10 4 "io boom" (by decide) (by decide)
      rfl rfl (Or.inr (by decide)) rfl,
    C4_amended.2.2.2.1 sFixDown3Err noStop 3 1 1 "io boom" (by decide) (by decide)
      rfl (by decide) rfl (Or.inr (by decide)) rfl,
    C4_amended.2.2.2.2.1 sFixUp4Err noStop 3 7 4 "io boom" (by decide) (by decide)
      (by decide) (by decide) rfl rfl rfl,
    C4_amended.2.2.2.2.2 sFixDown3Err noStop 3 1 1 "io boom" (by decide) (by decide)
      (by decide) (by decide) rfl (by decide) rfl rfl⟩

/-! ### Every planner emits only errors and migration records -/

theorem readUpLoop_known (s : SourceDrv) (stopO : Nat → Bool) :
    ∀ (fuel : Nat) (frm limit : Int) (count : Nat) (it : Item),
      it ∈ Migrate.readUpLoop s stopO fuel frm limit count → it.known := by
  intro fuel
  induction fuel with
  | zero => intro frm limit count it hit; simp [Migrate.readUpLoop] at hit
  | succ f ih =>
    intro frm limit count it hit
    rw [Migrate.readUpLoop] at hit
    repeat' split at hit
    all_goals
      try simp only [List.mem_cons, List.mem_singleton, List.not_mem_nil, or_false] at hit
    all_goals
      first
      | exact hit.elim
      | (subst hit; exact trivial)
      | (rcases hit with rfl | hit
         · exact trivial
         · first
           | exact hit.elim
           | (subst hit; exact trivial)
           | exact ih _ _ _ _ hit)

theorem readDownLoop_known (s : SourceDrv) (stopO : Nat → Bool) :
    ∀ (fuel : Nat) (frm limit : Int) (count : Nat) (it : Item),
      it ∈ Migrate.readDownLoop s stopO fuel frm limit count → it.known := by
  intro fuel
  induction fuel with
  | zero => intro frm limit count it hit; simp [Migrate.readDownLoop] at hit
  | succ f ih =>
    intro frm limit count it hit
    rw [Migrate.readDownLoop] at hit
    repeat' split at hit
    all_goals
      try simp only [List.mem_cons, List.mem_singleton, List.not_mem_nil, or_false] at hit
    all_goals
      first
      | exact hit.elim
      | (subst hit; exact trivial)
      | (rcases hit with rfl | hit
         · exact trivial
         · first
           | exact hit.elim
           | (subst hit; exact trivial)
           | exact ih _ _ _ _ hit)

theorem readLoopUp_known (s : SourceDrv) (stopO : Nat → Bool) :
    ∀ (fuel : Nat) (frm tgt : Int) (i : Nat) (it : Item),
      it ∈ Migrate.readLoopUp s stopO fuel frm tgt i → it.known := by
  intro fuel
  induction fuel with
  | zero => intro frm tgt i it hit; simp [Migrate.readLoopUp] at hit
  | succ f ih =>
    intro frm tgt i it hit
    rw [Migrate.readLoopUp] at hit
    repeat' split at hit
    all_goals
      try simp only [List.mem_cons, List.mem_singleton, List.not_mem_nil, or_false] at hit
    all_goals
      first
      | exact hit.elim
      | (subst hit; exact trivial)
      | (rcases hit with rfl | hit
         · exact trivial
         · first
           | exact hit.elim
           | (subst hit; exact trivial)
           | exact ih _ _ _ _ hit)

theorem readLoopDown_known (s : SourceDrv) (stopO : Nat → Bool) :
    ∀ (fuel : Nat) (frm tgt : Int) (i : Nat) (it : Item),
      it ∈ Migrate.readLoopDown s stopO fuel frm tgt i → it.known := by
  intro fuel
  induction fuel with
  | zero => intro frm tgt i it hit; simp [Migrate.readLoopDown] at hit
  | succ f ih =>
    intro frm tgt i it hit
    rw [Migrate.readLoopDown] at hit
    repeat' split at hit
    all_goals
      try simp only [List.mem_cons, List.mem_singleton, List.not_mem_nil, or_false] at hit
    all_goals
      first
      | exact hit.elim
      | (subst hit; exact trivial)
      | (rcases hit with rfl | hit
         · exact trivial
         · first
           | exact hit.elim
           | (subst hit; exact trivial)
           | exact ih _ _ _ _ hit)

theorem read_known (s : SourceDrv) (stopO : Nat → Bool) (frm tgt : Int) (it : Item)
    (hit : it ∈ Migrate.read s stopO frm tgt) : it.known := by
  rw [Migrate.read] at hit
  repeat' split at hit
  all_goals
    try simp only [List.mem_cons, List.mem_singleton, List.not_mem_nil, or_false] at hit
  all_goals
    first
    | exact hit.elim
    | (subst hit; exact trivial)
    | exact readLoopUp_known s stopO _ _ _ _ _ hit
    | exact readLoopDown_known s stopO _ _ _ _ _ hit
    | (rcases hit with rfl | hit
       · exact trivial
       · first
         | exact hit.elim
         | (subst hit; exact trivial)
         | exact readLoopUp_known s stopO _ _ _ _ _ hit
         | exact readLoopDown_known s stopO _ _ _ _ _ hit)

theorem readUp_known (s : SourceDrv) (stopO : Nat → Bool) (frm limit : Int) (it : Item)
    (hit : it ∈ Migrate.readUp s stopO frm limit) : it.known := by
  rw [Migrate.readUp] at hit
  repeat' split at hit
  all_goals
    try simp only [List.mem_cons, List.mem_singleton, List.not_mem_nil, or_false] at hit
  all_goals
    first
    | exact hit.elim
    | (subst hit; exact trivial)
    | exact readUpLoop_known s stopO _ _ _ _ _ hit

theorem readDown_known (s : SourceDrv) (stopO : Nat → Bool) (frm limit : Int) (it : Item)
    (hit : it ∈ Migrate.readDown s stopO frm limit) : it.known := by
  rw [Migrate.readDown] at hit
  repeat' split at hit
  all_goals
    try simp only [List.mem_cons, List.mem_singleton, List.not_mem_nil, or_false] at hit
  all_goals
    first
    | exact hit.elim
    | (subst hit; exact trivial)
    | exact readDownLoop_known s stopO _ _ _ _ _ hit

theorem runMigrations_no_panic (stopO : Nat → Bool) (b : DBBehavior) :
    ∀ (items : List Item) (st : DBState) (i : Nat),
      (∀ it ∈ items, it.known) →
      (Migrate.runMigrations stopO b st i items).1 ≠ .panicked := by
  intro items
  induction items with
  | nil => intro st i _; simp [Migrate.runMigrations]
  | cons item rest ih =>
    intro st i hknown
    simp only [Migrate.runMigrations]
    split
    · simp
    · match hitem : item with
      | .err e => dsimp only; simp
      | .migr mg =>
        dsimp only
        rcases hrun : DB.run b st mg.targetVersion mg.body with ⟨r, st1⟩
        rcases r with _ | er
        · exact ih st1 (i + 1) (fun it hi => hknown it (List.mem_cons_of_mem _ hi))
        · simp
      | .other tag =>
        dsimp only
        exact absurd (hknown (.other tag) (List.mem_cons_self _ _)) (by simp [Item.known])

/-- C8: every value the three planners send into the output channel is an
error or a migration record, and on any such channel content the runner's
default branch — panic("unknown type") — is unreachable. -/
theorem C8_channel_wellformed :
    (∀ (s : SourceDrv) (stopO : Nat → Bool) (frm tgt limit : Int) (it : Item),
      (it ∈ Migrate.read s stopO frm tgt ∨ it ∈ Migrate.readUp s stopO frm limit ∨
        it ∈ Migrate.readDown s stopO frm limit) →
      (∃ e, it = .err e) ∨ (∃ mg, it = .migr mg)) ∧
    (∀ (stopO : Nat → Bool) (b : DBBehavior) (st : DBState) (i : Nat) (items : List Item),
      (∀ it ∈ items, (∃ e, it = .err e) ∨ (∃ mg, it = .migr mg)) →
      (Migrate.runMigrations stopO b st i items).1 ≠ .panicked) := by
  have hconv : ∀ it : Item, it.known → (∃ e, it = .err e) ∨ (∃ mg, it = .migr mg) := by
    intro it h
    cases it with
    | err e => exact Or.inl ⟨e, rfl⟩
    | migr mg => exact Or.inr ⟨mg, rfl⟩
    | other tag => exact absurd h (by simp [Item.known])
  have hconv2 : ∀ it : Item, ((∃ e, it = .err e) ∨ (∃ mg, it = .migr mg)) → it.known := by
    intro it h
    rcases h with ⟨e, rfl⟩ | ⟨mg, rfl⟩ <;> exact trivial
  constructor
  · intro s stopO frm tgt limit it hmem
    rcases hmem with h | h | h
    · exact hconv it (read_known s stopO frm tgt it h)
    · exact hconv it (readUp_known s stopO frm limit it h)
    · exact hconv it (readDown_known s stopO frm limit it h)
  · intro stopO b st i items h
    exact runMigrations_no_panic stopO b items st i (fun it hi => hconv2 it (h it hi))

/-- C8 witness: the planner item of readUp(-1, 0) is of a known kind, and
the runner does not panic on the full Up plan of the scenario source. -/
theorem C8_witness :
    ((∃ e, Item.err Err.noChange = Item.err e) ∨
      (∃ mg, Item.err Err.noChange = Item.migr mg)) ∧
    (Migrate.runMigrations noStop bFix stFix 0
        (Migrate.readUp sFix noStop (-1) (-1))).1 ≠ .panicked := by
  refine ⟨C8_channel_wellformed.1 sFix noStop (-1) 0 0 (Item.err Err.noChange)
      (Or.inr (Or.inl (by decide))), ?_⟩
  exact C8_channel_wellformed.2 noStop bFix stFix 0 (Migrate.readUp sFix noStop (-1) (-1))
    (fun it hi => C8_channel_wellformed.1 sFix noStop (-1) 0 (-1) it (Or.inr (Or.inl hi)))

/-! ### Frame lemmas: the runner touches neither the lock counters nor the
driver-side lock flag -/

theorem DB_run_frame (b : DBBehavior) (st : DBState) (t : Int) (bo : Option String) :
    (DB.run b st t bo).2.lockCalls = st.lockCalls ∧
    (DB.run b st t bo).2.unlockCalls = st.unlockCalls ∧
    (DB.run b st t bo).2.dbIsLocked = st.dbIsLocked := by
  unfold DB.run
  rcases h : b.runErr t with _ | msg <;> simp [h]

theorem runMigrations_frame (stopO : Nat → Bool) (b : DBBehavior) :
    ∀ (items : List Item) (st : DBState) (i : Nat),
      (Migrate.runMigrations stopO b st i items).2.lockCalls = st.lockCalls ∧
      (Migrate.runMigrations stopO b st i items).2.unlockCalls = st.unlockCalls ∧
      (Migrate.runMigrations stopO b st i items).2.dbIsLocked = st.dbIsLocked := by
  intro items
  induction items with
  | nil => intro st i; simp [Migrate.runMigrations]
  | cons item rest ih =>
    intro st i
    simp only [Migrate.runMigrations]
    split
    · exact ⟨rfl, rfl, rfl⟩
    · cases item with
      | err e => exact ⟨rfl, rfl, rfl⟩
      | migr mg =>
        dsimp only
        rcases hrun : DB.run b st mg.targetVersion mg.body with ⟨r, st1⟩
        have hf := DB_run_frame b st mg.targetVersion mg.body
        rw [hrun] at hf
        rcases r with _ | er
        · have hi := ih st1 (i + 1)
          exact ⟨hi.1.trans hf.1, hi.2.1.trans hf.2.1, hi.2.2.trans hf.2.2⟩
        · exact hf
      | other tag => exact ⟨rfl, rfl, rfl⟩

theorem unlock_counts (e : Migrate) (b : DBBehavior) (st : DBState) :
    (Migrate.unlock e b st).2.2.lockCalls = st.lockCalls ∧
    (Migrate.unlock e b st).2.2.unlockCalls = st.unlockCalls + 1 := by
  unfold Migrate.unlock DB.unlock
  rcases h : b.unlockErr with _ | m <;> simp [h]

theorem unlockErr_counts (e : Migrate) (b : DBBehavior) (st : DBState) (p : Option Err) :
    (Migrate.unlockErr e b st p).2.2.lockCalls = st.lockCalls ∧
    (Migrate.unlockErr e b st p).2.2.unlockCalls = st.unlockCalls + 1 := by
  rcases h : b.unlockErr with _ | m
  · rw [unlockErr_ok e b st p h]
    exact ⟨rfl, rfl⟩
  · rw [unlockErr_fail e b st p m h]
    exact ⟨rfl, rfl⟩

theorem runThenUnlock_counts (e : Migrate) (b : DBBehavior) (st : DBState)
    (stopOR : Nat → Bool) (items : List Item) (hk : ∀ it ∈ items, Item.known it) :
    (Migrate.runThenUnlock e b st stopOR items).2.2.lockCalls = st.lockCalls ∧
    (Migrate.runThenUnlock e b st stopOR items).2.2.unlockCalls = st.unlockCalls + 1 := by
  rw [Migrate.runThenUnlock]
  rcases hrm : Migrate.runMigrations stopOR b st 0 items with ⟨oc, st1⟩
  have hframe := runMigrations_frame stopOR b items st 0
  rw [hrm] at hframe
  have hnp := runMigrations_no_panic stopOR b items st 0 hk
  rw [hrm] at hnp
  rcases oc with _ | er | _
  · dsimp only
    rcases hue : Migrate.unlockErr e b st1 none with ⟨r, e1, st2⟩
    have hc := unlockErr_counts e b st1 none
    rw [hue] at hc
    exact ⟨hc.1.trans hframe.1, by rw [hc.2, hframe.2.1]⟩
  · dsimp only
    rcases hue : Migrate.unlockErr e b st1 (some er) with ⟨r, e1, st2⟩
    have hc := unlockErr_counts e b st1 (some er)
    rw [hue] at hc
    exact ⟨hc.1.trans hframe.1, by rw [hc.2, hframe.2.1]⟩
  · exact absurd rfl hnp

theorem versionThenRun_counts (e1 : Migrate) (b : DBBehavior) (st1 : DBState)
    (stopOR : Nat → Bool) (f : Int → List Item)
    (hk : ∀ cur : Int, ∀ it ∈ f cur, Item.known it) :
    ((match DB.version b st1 with
      | .error err =>
        match Migrate.unlockErr e1 b st1 (some err) with
        | (r, e2, st2) => (OpResult.ret r, e2, st2)
      | .ok cur => Migrate.runThenUnlock e1 b st1 stopOR (f cur)) :
        OpResult × Migrate × DBState).2.2.lockCalls = st1.lockCalls ∧
    ((match DB.version b st1 with
      | .error err =>
        match Migrate.unlockErr e1 b st1 (some err) with
        | (r, e2, st2) => (OpResult.ret r, e2, st2)
      | .ok cur => Migrate.runThenUnlock e1 b st1 stopOR (f cur)) :
        OpResult × Migrate × DBState).2.2.unlockCalls = st1.unlockCalls + 1 := by
  rcases h : DB.version b st1 with ⟨err⟩ | ⟨cur⟩
  · dsimp only
    rcases hue : Migrate.unlockErr e1 b st1 (some err) with ⟨r, e2, st2⟩
    have hc := unlockErr_counts e1 b st1 (some err)
    rw [hue] at hc
    exact hc
  · dsimp only
    exact runThenUnlock_counts e1 b st1 stopOR (f cur) (hk cur)

theorem dropThenUnlock_counts (e1 : Migrate) (b : DBBehavior) (st1 : DBState) :
    ((match DB.drop b st1 with
      | (some err, st2) =>
        match Migrate.unlockErr e1 b st2 (some err) with
        | (r, e2, st3) => (OpResult.ret r, e2, st3)
      | (none, st2) =>
        match Migrate.unlock e1 b st2 with
        | (r, e2, st3) => (OpResult.ret r, e2, st3)) :
        OpResult × Migrate × DBState).2.2.lockCalls = st1.lockCalls ∧
    ((match DB.drop b st1 with
      | (some err, st2) =>
        match Migrate.unlockErr e1 b st2 (some err) with
        | (r, e2, st3) => (OpResult.ret r, e2, st3)
      | (none, st2) =>
        match Migrate.unlock e1 b st2 with
        | (r, e2, st3) => (OpResult.ret r, e2, st3)) :
        OpResult × Migrate × DBState).2.2.unlockCalls = st1.unlockCalls + 1 := by
  rcases hdrop : DB.drop b st1 with ⟨r0, st2⟩
  have hdc : st2.lockCalls = st1.lockCalls ∧ st2.unlockCalls = st1.unlockCalls := by
    unfold DB.drop at hdrop
    rcases hd : b.dropErr with _ | m <;> rw [hd] at hdrop <;>
      injection hdrop with h1 h2 <;> rw [h2.symm] <;> exact ⟨rfl, rfl⟩
  rcases r0 with _ | er
  · dsimp only
    rcases hul : Migrate.unlock e1 b st2 with ⟨r, e2, st3⟩
    have hc := unlock_counts e1 b st2
    rw [hul] at hc
    exact ⟨hc.1.trans hdc.1, by rw [hc.2, hdc.2]⟩
  · dsimp only
    rcases hue : Migrate.unlockErr e1 b st2 (some er) with ⟨r, e2, st3⟩
    have hc := unlockErr_counts e1 b st2 (some er)
    rw [hue] at hc
    exact ⟨hc.1.trans hdc.1, by rw [hc.2, hdc.2]⟩

/-- C1 lock discipline: on an engine that does not already hold the lock
and a driver whose Lock succeeds, every mutating operation — Migrate,
Steps (n ≠ 0), Up, Down, Drop — calls the driver's Unlock exactly once on
every exit path, whatever the stop oracles and the other driver error
injections do; so the counting driver sees lockCalls and unlockCalls each
grow by exactly one. -/
theorem C1_lock_discipline (e : Migrate) (b : DBBehavior) (st : DBState)
    (stopOP stopOR : Nat → Bool) (v : Nat) (n : Int)
    (he : e.isLocked = false) (hb : b.lockErr = none) (hdb : st.dbIsLocked = false)
    (hn : n ≠ 0) :
    ((Migrate.MigrateTo e b st stopOP stopOR v).2.2.lockCalls = st.lockCalls + 1 ∧
      (Migrate.MigrateTo e b st stopOP stopOR v).2.2.unlockCalls = st.unlockCalls + 1) ∧
    ((Migrate.Steps e b st stopOP stopOR n).2.2.lockCalls = st.lockCalls + 1 ∧
      (Migrate.Steps e b st stopOP stopOR n).2.2.unlockCalls = st.unlockCalls + 1) ∧
    ((Migrate.Up e b st stopOP stopOR).2.2.lockCalls = st.lockCalls + 1 ∧
      (Migrate.Up e b st stopOP stopOR).2.2.unlockCalls = st.unlockCalls + 1) ∧
    ((Migrate.Down e b st stopOP stopOR).2.2.lockCalls = st.lockCalls + 1 ∧
      (Migrate.Down e b st stopOP stopOR).2.2.unlockCalls = st.unlockCalls + 1) ∧
    ((Migrate.Drop e b st).2.2.lockCalls = st.lockCalls + 1 ∧
      (Migrate.Drop e b st).2.2.unlockCalls = st.unlockCalls + 1) := by
  have hlock := lock_ok e b st he hb hdb
  refine ⟨?_, ?_, ?_, ?_, ?_⟩
  · rw [Migrate.MigrateTo, hlock]
    exact versionThenRun_counts _ b _ stopOR
      (fun cur => Migrate.read e.src stopOP cur (Int.ofNat v))
      (fun cur it hit => read_known e.src stopOP cur (Int.ofNat v) it hit)
  · rw [Migrate.Steps, if_neg hn, hlock]
    refine versionThenRun_counts _ b _ stopOR
      (fun cur => if 0 < n then Migrate.readUp e.src stopOP cur n
        else Migrate.readDown e.src stopOP cur (-n)) ?_
    intro cur it hit
    dsimp only at hit
    by_cases h0 : 0 < n
    · rw [if_pos h0] at hit
      exact readUp_known e.src stopOP cur n it hit
    · rw [if_neg h0] at hit
      exact readDown_known e.src stopOP cur (-n) it hit
  · rw [Migrate.Up, hlock]
    exact versionThenRun_counts _ b _ stopOR
      (fun cur => Migrate.readUp e.src stopOP cur (-1))
      (fun cur it hit => readUp_known e.src stopOP cur (-1) it hit)
  · rw [Migrate.Down, hlock]
    exact versionThenRun_counts _ b _ stopOR
      (fun cur => Migrate.readDown e.src stopOP cur (-1))
      (fun cur it hit => readDown_known e.src stopOP cur (-1) it hit)
  · rw [Migrate.Drop, hlock]
    exact dropThenUnlock_counts _ b _

/-- C1 witness: Up on the scenario engine with a clean driver bumps both
counters from 0 to 1. -/
theorem C1_witness :
    (Migrate.Up eFix bFix stFix noStop noStop).2.2.lockCalls = 0 + 1 ∧
    (Migrate.Up eFix bFix stFix noStop noStop).2.2.unlockCalls = 0 + 1 := by
  exact (C1_lock_discipline eFix bFix stFix noStop noStop 4 2 rfl rfl rfl
    (by decide)).2.2.1

/-! ### Cancellation lemmas -/

theorem DB_run_none (b : DBBehavior) (st : DBState) (t : Int) (bo : Option String)
    (h : b.runErr t = none) :
    DB.run b st t bo = (none, runOkSt st t bo) := by
  unfold DB.run runOkSt
  rw [h]

theorem runMigrations_stop_at (b : DBBehavior) (stopO : Nat → Bool) :
    ∀ (migs : List Migration) (st : DBState) (j p : Nat),
      (∀ mg ∈ migs, b.runErr mg.targetVersion = none) →
      (∀ i, i < p → stopO (j + i) = false) →
      stopO (j + p) = true →
      (Migrate.runMigrations stopO b st j (migs.map Item.migr)).1 = .ok ∧
      (Migrate.runMigrations stopO b st j (migs.map Item.migr)).2.runLog.length =
        st.runLog.length + min p migs.length := by
  intro migs
  induction migs with
  | nil => intro st j p _ _ _; simp [Migrate.runMigrations]
  | cons mg rest ih =>
    intro st j p hrun hlt hp
    rcases p with _ | q
    · have hj : stopO j = true := by simpa using hp
      simp [Migrate.runMigrations, hj]
    · have hj : stopO j = false := by simpa using hlt 0 (Nat.succ_pos q)
      have hr : b.runErr mg.targetVersion = none := hrun mg (List.mem_cons_self _ _)
      simp only [List.map_cons, Migrate.runMigrations, hj, Bool.false_eq_true, if_false,
        DB_run_none b st mg.targetVersion mg.body hr]
      have hrec := ih (runOkSt st mg.targetVersion mg.body) (j + 1) q
        (fun m hm => hrun m (List.mem_cons_of_mem _ hm))
        (fun i hi => by
          have h2 := hlt (i + 1) (by omega)
          have h3 : j + 1 + i = j + (i + 1) := by omega
          rw [h3]
          exact h2)
        (by
          have h3 : j + 1 + q = j + (q + 1) := by omega
          rw [h3]
          exact hp)
      refine ⟨hrec.1, ?_⟩
      rw [hrec.2]
      have hlen : (runOkSt st mg.targetVersion mg.body).runLog.length =
          st.runLog.length + 1 := by simp [runOkSt]
      rw [hlen, List.length_cons]
      omega

theorem runMigrations_all_ok (stopO : Nat → Bool) (b : DBBehavior) :
    ∀ (items : List Item) (st : DBState) (i : Nat),
      (∀ it ∈ items, ∃ mg, it = Item.migr mg ∧ b.runErr mg.targetVersion = none) →
      (Migrate.runMigrations stopO b st i items).1 = .ok := by
  intro items
  induction items with
  | nil => intro st i _; simp [Migrate.runMigrations]
  | cons item rest ih =>
    intro st i h
    rcases h item (List.mem_cons_self _ _) with ⟨mg, rfl, hr⟩
    simp only [Migrate.runMigrations]
    split
    · rfl
    · rw [DB_run_none b st mg.targetVersion mg.body hr]
      exact ih _ (i + 1) (fun it hi => h it (List.mem_cons_of_mem _ hi))

theorem prefix_cons_item (x : Item) (l l' : List Item) (h : l <+: l') :
    x :: l <+: x :: l' := by
  rcases h with ⟨t, ht⟩
  exact ⟨t, by rw [List.cons_append, ht]⟩

theorem readUpLoop_prefix (s : SourceDrv) (stopO : Nat → Bool) :
    ∀ (fuel : Nat) (frm limit : Int) (count : Nat),
      Migrate.readUpLoop s stopO fuel frm limit count <+:
        Migrate.readUpLoop s noStop fuel frm limit count := by
  intro fuel
  induction fuel with
  | zero => intro frm limit count; simp [Migrate.readUpLoop]
  | succ f ih =>
    intro frm limit count
    simp only [Migrate.readUpLoop]
    by_cases hcond : ((count : Int) < limit ∨ limit = -1)
    · rw [if_pos hcond, if_pos hcond]
      simp only [noStop, Bool.false_eq_true, if_false]
      by_cases hstop : stopO count = true
      · rw [if_pos hstop]
        exact ⟨_, rfl⟩
      · rw [if_neg hstop]
        by_cases hfrm : frm = -1
        · rw [if_pos hfrm, if_pos hfrm]
          rcases hF : s.First with e | fv
          · exact ⟨[], List.append_nil _⟩
          · dsimp only
            rcases hM : Migrate.newMigration s fv (Int.ofNat fv) with e | mg
            · exact ⟨[], List.append_nil _⟩
            · exact prefix_cons_item _ _ _ (ih _ _ _)
        · rw [if_neg hfrm, if_neg hfrm]
          rcases hN : s.Next frm.toNat with e | nxt
          · exact ⟨[], List.append_nil _⟩
          · dsimp only
            rcases hM : Migrate.newMigration s nxt (Int.ofNat nxt) with e | mg
            · exact ⟨[], List.append_nil _⟩
            · exact prefix_cons_item _ _ _ (ih _ _ _)
    · rw [if_neg hcond, if_neg hcond]

theorem readDownLoop_prefix (s : SourceDrv) (stopO : Nat → Bool) :
    ∀ (fuel : Nat) (frm limit : Int) (count : Nat),
      Migrate.readDownLoop s stopO fuel frm limit count <+:
        Migrate.readDownLoop s noStop fuel frm limit count := by
  intro fuel
  induction fuel with
  | zero => intro frm limit count; simp [Migrate.readDownLoop]
  | succ f ih =>
    intro frm limit count
    simp only [Migrate.readDownLoop]
    by_cases hcond : ((count : Int) < limit ∨ limit = -1)
    · rw [if_pos hcond, if_pos hcond]
      simp only [noStop, Bool.false_eq_true, if_false]
      by_cases hstop : stopO count = true
      · rw [if_pos hstop]
        exact ⟨_, rfl⟩
      · rw [if_neg hstop]
        rcases hP : s.Prev frm.toNat with e | p
        · exact ⟨[], List.append_nil _⟩
        · dsimp only
          rcases hM : Migrate.newMigration s frm.toNat (Int.ofNat p) with e | mg
          · exact ⟨[], List.append_nil _⟩
          · exact prefix_cons_item _ _ _ (ih _ _ _)
    · rw [if_neg hcond, if_neg hcond]

theorem readLoopUp_prefix (s : SourceDrv) (stopO : Nat → Bool) :
    ∀ (fuel : Nat) (frm tgt : Int) (i : Nat),
      Migrate.readLoopUp s stopO fuel frm tgt i <+:
        Migrate.readLoopUp s noStop fuel frm tgt i := by
  intro fuel
  induction fuel with
  | zero => intro frm tgt i; simp [Migrate.readLoopUp]
  | succ f ih =>
    intro frm tgt i
    simp only [Migrate.readLoopUp]
    by_cases hcond : frm < tgt
    · rw [if_pos hcond, if_pos hcond]
      simp only [noStop, Bool.false_eq_true, if_false]
      by_cases hstop : stopO i = true
      · rw [if_pos hstop]
        exact ⟨_, rfl⟩
      · rw [if_neg hstop]
        rcases hN : s.Next frm.toNat with e | nxt
        · exact ⟨[], List.append_nil _⟩
        · dsimp only
          rcases hM : Migrate.newMigration s nxt (Int.ofNat nxt) with e | mg
          · exact ⟨[], List.append_nil _⟩
          · exact prefix_cons_item _ _ _ (ih _ _ _)
    · rw [if_neg hcond, if_neg hcond]

theorem readLoopDown_prefix (s : SourceDrv) (stopO : Nat → Bool) :
    ∀ (fuel : Nat) (frm tgt : Int) (i : Nat),
      Migrate.readLoopDown s stopO fuel frm tgt i <+:
        Migrate.readLoopDown s noStop fuel frm tgt i := by
  intro fuel
  induction fuel with
  | zero => intro frm tgt i; simp [Migrate.readLoopDown]
  | succ f ih =>
    intro frm tgt i
    simp only [Migrate.readLoopDown]
    by_cases hcond : (tgt < frm ∧ 0 ≤ frm)
    · rw [if_pos hcond, if_pos hcond]
      simp only [noStop, Bool.false_eq_true, if_false]
      by_cases hstop : stopO i = true
      · rw [if_pos hstop]
        exact ⟨_, rfl⟩
      · rw [if_neg hstop]
        rcases hP : s.Prev frm.toNat with e | p
        · dsimp only
          by_cases hnil : (e = Err.notExist ∧ tgt = -1)
          · rw [if_pos hnil]
          · rw [if_neg hnil]
        · dsimp only
          rcases hM : Migrate.newMigration s frm.toNat (Int.ofNat p) with e | mg
          · exact ⟨[], List.append_nil _⟩
          · exact prefix_cons_item _ _ _ (ih _ _ _)
    · rw [if_neg hcond, if_neg hcond]

theorem read_prefix (s : SourceDrv) (stopO : Nat → Bool) (frm tgt : Int) :
    Migrate.read s stopO frm tgt <+: Migrate.read s noStop frm tgt := by
  rw [Migrate.read, Migrate.read]
  by_cases h1 : (0 ≤ frm ∧ Migrate.versionExists s frm.toNat ≠ none)
  · rw [if_pos h1, if_pos h1]
  · rw [if_neg h1, if_neg h1]
    by_cases h2 : (0 ≤ tgt ∧ Migrate.versionExists s tgt.toNat ≠ none)
    · rw [if_pos h2, if_pos h2]
    · rw [if_neg h2, if_neg h2]
      by_cases h3 : frm = tgt
      · rw [if_pos h3, if_pos h3]
      · rw [if_neg h3, if_neg h3]
        by_cases h4 : frm < tgt
        · rw [if_pos h4, if_pos h4]
          by_cases h5 : frm = -1
          · rw [if_pos h5, if_pos h5]
            rcases hF : s.First with e | f
            · exact ⟨[], List.append_nil _⟩
            · dsimp only
              rcases hM : Migrate.newMigration s f (Int.ofNat f) with e | mg
              · exact ⟨[], List.append_nil _⟩
              · exact prefix_cons_item _ _ _ ( readLoopUp_prefix s stopO _ _ _ _)
          · rw [if_neg h5, if_neg h5]
            exact readLoopUp_prefix s stopO _ _ _ _
        · rw [if_neg h4, if_neg h4]
          exact readLoopDown_prefix s stopO _ _ _ _

theorem versionThenRun_ok (e1 : Migrate) (b : DBBehavior) (st1 : DBState)
    (stopOR : Nat → Bool) (f : Int → List Item)
    (hv : b.versionErr = none) (hu : b.unlockErr = none)
    (hitems : ∀ it ∈ f (if st1.version < 0 then -1 else st1.version),
      ∃ mg, it = Item.migr mg ∧ b.runErr mg.targetVersion = none) :
    ((match DB.version b st1 with
      | .error err =>
        match Migrate.unlockErr e1 b st1 (some err) with
        | (r, e2, st2) => (OpResult.ret r, e2, st2)
      | .ok cur => Migrate.runThenUnlock e1 b st1 stopOR (f cur)) :
        OpResult × Migrate × DBState).1 = .ret none := by
  have hver : DB.version b st1 = .ok (if st1.version < 0 then -1 else st1.version) := by
    unfold DB.version
    rw [hv]
  rw [hver]
  dsimp only
  rw [Migrate.runThenUnlock]
  rcases hrm : Migrate.runMigrations stopOR b st1 0
      (f (if st1.version < 0 then -1 else st1.version)) with ⟨oc, st2⟩
  have hok := runMigrations_all_ok stopOR b _ st1 0 hitems
  rw [hrm] at hok
  cases hok
  dsimp only
  rw [unlockErr_ok _ b _ none hu]

/-- C6 cancellation cleanliness: (a) if the stop signal is first observed
by the runner at check `p` — after `p` completed Run calls — and the
signal was delivered after `k` successful Run calls (so `p` is `k` or
`k + 1`), the runner performs exactly `k` or `k + 1` Run calls in total
and returns nil; (b) under any stop oracle the output of each of the
three planners — readUp, readDown and the absolute planner read — is a
prefix of the uncancelled plan: after observing stop a planner sends
nothing further and closes its channel; (c) stop() latches: a positive
observation sets the sticky flag and every later stop() also reports
true; (d) each planning operation — Migrate, Steps (n ≠ 0), Up and
Down — whose runner consumed only successfully-running migrations (in
particular one stopped by a graceful stop) returns nil. -/
theorem C6_graceful_stop :
    (∀ (b : DBBehavior) (stopO : Nat → Bool) (migs : List Migration) (st : DBState)
        (p k : Nat),
      (∀ mg ∈ migs, b.runErr mg.targetVersion = none) →
      (∀ i, i < p → stopO i = false) →
      stopO p = true →
      (p = k ∨ p = k + 1) →
      k + 1 ≤ migs.length →
      (Migrate.runMigrations stopO b st 0 (migs.map Item.migr)).1 = .ok ∧
      ((Migrate.runMigrations stopO b st 0 (migs.map Item.migr)).2.runLog.length =
          st.runLog.length + k ∨
        (Migrate.runMigrations stopO b st 0 (migs.map Item.migr)).2.runLog.length =
          st.runLog.length + (k + 1))) ∧
    (∀ (s : SourceDrv) (stopO : Nat → Bool) (frm limit tgt : Int),
      Migrate.readUp s stopO frm limit <+: Migrate.readUp s noStop frm limit ∧
      Migrate.readDown s stopO frm limit <+: Migrate.readDown s noStop frm limit ∧
      Migrate.read s stopO frm tgt <+: Migrate.read s noStop frm tgt) ∧
    (∀ ss : StopState,
      (ss.isGracefulStop = true → (Migrate.stop ss).1 = true) ∧
      ((Migrate.stop ss).1 = true →
        (Migrate.stop ss).2.isGracefulStop = true ∧
        (Migrate.stop (Migrate.stop ss).2).1 = true)) ∧
    (∀ (e : Migrate) (b : DBBehavior) (st : DBState) (stopOP stopOR : Nat → Bool)
        (v : Nat) (n : Int),
      e.isLocked = false → b.lockErr = none → st.dbIsLocked = false →
      b.versionErr = none → b.unlockErr = none →
      ((∀ it ∈ Migrate.read e.src stopOP (if st.version < 0 then -1 else st.version)
          (Int.ofNat v),
        ∃ mg, it = Item.migr mg ∧ b.runErr mg.targetVersion = none) →
        (Migrate.MigrateTo e b st stopOP stopOR v).1 = .ret none) ∧
      (n ≠ 0 →
        (∀ it ∈ (if 0 < n then
            Migrate.readUp e.src stopOP (if st.version < 0 then -1 else st.version) n
          else
            Migrate.readDown e.src stopOP (if st.version < 0 then -1 else st.version)
              (-n)),
          ∃ mg, it = Item.migr mg ∧ b.runErr mg.targetVersion = none) →
        (Migrate.Steps e b st stopOP stopOR n).1 = .ret none) ∧
      ((∀ it ∈ Migrate.readUp e.src stopOP (if st.version < 0 then -1 else st.version)
          (-1),
        ∃ mg, it = Item.migr mg ∧ b.runErr mg.targetVersion = none) →
        (Migrate.Up e b st stopOP stopOR).1 = .ret none) ∧
      ((∀ it ∈ Migrate.readDown e.src stopOP (if st.version < 0 then -1 else st.version)
          (-1),
        ∃ mg, it = Item.migr mg ∧ b.runErr mg.targetVersion = none) →
        (Migrate.Down e b st stopOP stopOR).1 = .ret none)) := by
  refine ⟨?_, ?_, ?_, ?_⟩
  · intro b stopO migs st p k hrun hlt hp hpk hk
    have h := runMigrations_stop_at b stopO migs st 0 p hrun
      (fun i hi => by simpa using hlt i hi) (by simpa using hp)
    refine ⟨h.1, ?_⟩
    rw [h.2]
    have hmin : min p migs.length = p := by omega
    rw [hmin]
    omega
  · intro s stopO frm limit tgt
    refine ⟨?_, ?_, read_prefix s stopO frm tgt⟩
    · rw [Migrate.readUp, Migrate.readUp]
      by_cases h1 : (0 ≤ frm ∧ Migrate.versionExists s frm.toNat ≠ none)
      · rw [if_pos h1, if_pos h1]
      · rw [if_neg h1, if_neg h1]
        by_cases h2 : limit = 0
        · rw [if_pos h2, if_pos h2]
        · rw [if_neg h2, if_neg h2]
          exact readUpLoop_prefix s stopO _ frm limit 0
    · rw [Migrate.readDown, Migrate.readDown]
      by_cases h1 : (0 ≤ frm ∧ Migrate.versionExists s frm.toNat ≠ none)
      · rw [if_pos h1, if_pos h1]
      · rw [if_neg h1, if_neg h1]
        by_cases h2 : limit = 0
        · rw [if_pos h2, if_pos h2]
        · rw [if_neg h2, if_neg h2]
          by_cases h3 : frm = -1 ∧ limit = -1
          · rw [if_pos h3, if_pos h3]
          · rw [if_neg h3, if_neg h3]
            by_cases h4 : frm = -1 ∧ 0 < limit
            · rw [if_pos h4, if_pos h4]
            · rw [if_neg h4, if_neg h4]
              exact readDownLoop_prefix s stopO _ frm limit 0
  · intro ss
    constructor
    · intro h
      simp [Migrate.stop, h]
    · intro h
      unfold Migrate.stop at h ⊢
      by_cases h1 : ss.isGracefulStop = true
      · simp [h1]
      · by_cases h2 : ss.pendingSignal = true
        · simp [h1, h2] at h ⊢
        · simp [h1, h2] at h
  · intro e b st stopOP stopOR v n he hb hdb hv hu
    refine ⟨?_, ?_, ?_, ?_⟩
    · intro hitems
      rw [Migrate.MigrateTo, lock_ok e b st he hb hdb]
      exact versionThenRun_ok _ b _ stopOR
        (fun cur => Migrate.read e.src stopOP cur (Int.ofNat v)) hv hu hitems
    · intro hn hitems
      rw [Migrate.Steps, if_neg hn, lock_ok e b st he hb hdb]
      exact versionThenRun_ok _ b _ stopOR
        (fun cur => if 0 < n then Migrate.readUp e.src stopOP cur n
          else Migrate.readDown e.src stopOP cur (-n)) hv hu hitems
    · intro hitems
      rw [Migrate.Up, lock_ok e b st he hb hdb]
      exact versionThenRun_ok _ b _ stopOR
        (fun cur => Migrate.readUp e.src stopOP cur (-1)) hv hu hitems
    · intro hitems
      rw [Migrate.Down, lock_ok e b st he hb hdb]
      exact versionThenRun_ok _ b _ stopOR
        (fun cur => Migrate.readDown e.src stopOP cur (-1)) hv hu hitems

/-- C6 witness: with a signal first observed at the check after one
completed Run (k = 1), the runner does exactly 1 or 2 of the 3 planned
Runs and returns nil; cancelled readUp and read outputs are prefixes of
the uncancelled plans; a pending signal latches; Up and Down under a
cancelled runner return nil. -/
theorem C6_witness :
    ((Migrate.runMigrations (fun i => decide (0 < i)) bFix stFix 0
        (migsFix.map Item.migr)).1 = .ok ∧
      ((Migrate.runMigrations (fun i => decide (0 < i)) bFix stFix 0
          (migsFix.map Item.migr)).2.runLog.length = stFix.runLog.length + 1 ∨
        (Migrate.runMigrations (fun i => decide (0 < i)) bFix stFix 0
          (migsFix.map Item.migr)).2.runLog.length = stFix.runLog.length + (1 + 1))) ∧
    Migrate.readUp sFix (fun _ => true) (-1) (-1) <+:
      Migrate.readUp sFix noStop (-1) (-1) ∧
    Migrate.read sFix (fun _ => true) 7 4 <+: Migrate.read sFix noStop 7 4 ∧
    ((Migrate.stop { isGracefulStop := false, pendingSignal := true }).2.isGracefulStop = true ∧
      (Migrate.stop (Migrate.stop
        { isGracefulStop := false, pendingSignal := true }).2).1 = true) ∧
    (Migrate.Up eFix bFix stFix noStop (fun i => decide (0 < i))).1 = .ret none ∧
    (Migrate.Down eFix bFix { stFix with version := 7 } noStop
      (fun i => decide (0 < i))).1 = .ret none := by
  refine ⟨?_, ?_, ?_, ?_, ?_, ?_⟩
  · exact C6_graceful_stop.1 bFix (fun i => decide (0 < i)) migsFix stFix 1 1
      (fun mg _ => rfl)
      (fun i hi => by
        have h0 : i = 0 := by omega
        subst h0
        rfl)
      rfl (Or.inl rfl) (by decide)
  · exact (C6_graceful_stop.2.1 sFix (fun _ => true) (-1) (-1) 0).1
  · exact (C6_graceful_stop.2.1 sFix (fun _ => true) 7 0 4).2.2
  · exact (C6_graceful_stop.2.2.1 { isGracefulStop := false, pendingSignal := true }).2 rfl
  · refine (C6_graceful_stop.2.2.2 eFix bFix stFix noStop (fun i => decide (0 < i)) 4 2
      rfl rfl rfl rfl rfl).2.2.1 ?_
    intro it hit
    have hl : Migrate.readUp eFix.src noStop
        (if stFix.version < 0 then -1 else stFix.version) (-1) =
        [Item.migr { version := 1, targetVersion := 1, body := some "u1" },
         Item.migr { version := 3, targetVersion := 3, body := some "u3" },
         Item.migr { version := 4, targetVersion := 4, body := some "u4" },
         Item.migr { version := 5, targetVersion := 5, body := some "u5" },
         Item.migr { version := 7, targetVersion := 7, body := some "u7" }] := by decide
    rw [hl] at hit
    simp only [List.mem_cons, List.not_mem_nil, or_false] at hit
    rcases hit with rfl | rfl | rfl | rfl | rfl <;> exact ⟨_, rfl, rfl⟩
  · refine (C6_graceful_stop.2.2.2 eFix bFix { stFix with version := 7 } noStop
      (fun i => decide (0 < i)) 4 2 rfl rfl rfl rfl rfl).2.2.2 ?_
    intro it hit
    have hl : Migrate.readDown eFix.src noStop
        (if ({ stFix with version := 7 } : DBState).version < 0 then -1
          else ({ stFix with version := 7 } : DBState).version) (-1) =
        [Item.migr { version := 7, targetVersion := 5, body := some "d7" },
         Item.migr { version := 5, targetVersion := 4, body := some "d5" },
         Item.migr { version := 4, targetVersion := 3, body := some "d4" },
         Item.migr { version := 3, targetVersion := 1, body := some "d3" },
         Item.migr { version := 1, targetVersion := -1, body := some "d1" }] := by decide
    rw [hl] at hit
    simp only [List.mem_cons, List.not_mem_nil, or_false] at hit
    rcases hit with rfl | rfl | rfl | rfl | rfl <;> exact ⟨_, rfl, rfl⟩

/-! ### Targets of the absolute planner -/

theorem newMigration_target (s : SourceDrv) (v : Nat) (t : Int) (mg : Migration)
    (h : Migrate.newMigration s v t = .ok mg) : mg.targetVersion = t := by
  unfold Migrate.newMigration NewMigration at h
  repeat' split at h
  all_goals first
    | (injection h with h2; rw [← h2])
    | simp at h

theorem readLoopUp_targets (s : SourceDrv) (stopO : Nat → Bool) :
    ∀ (fuel : Nat) (frm tgt : Int) (i : Nat) (mg : Migration),
      Item.migr mg ∈ Migrate.readLoopUp s stopO fuel frm tgt i →
      0 ≤ mg.targetVersion := by
  intro fuel
  induction fuel with
  | zero => intro frm tgt i mg h; simp [Migrate.readLoopUp] at h
  | succ f ih =>
    intro frm tgt i mg h
    rw [Migrate.readLoopUp] at h
    by_cases h1 : frm < tgt
    case neg => rw [if_neg h1] at h; simp at h
    rw [if_pos h1] at h
    by_cases h2 : stopO i = true
    case pos => rw [if_pos h2] at h; simp at h
    rw [if_neg h2] at h
    rcases hN : s.Next frm.toNat with e | nxt
    · simp only [hN] at h
      simp at h
    · simp only [hN] at h
      rcases hM : Migrate.newMigration s nxt (Int.ofNat nxt) with e2 | mg2
      · simp only [hM] at h
        simp at h
      · simp only [hM, List.mem_cons] at h
        rcases h with h | h
        · have ht := newMigration_target s nxt (Int.ofNat nxt) mg2 hM
          have hmg : mg = mg2 := by injection h
          rw [hmg, ht]
          exact Int.natCast_nonneg nxt
        · exact ih _ _ _ _ h

theorem readLoopDown_targets (s : SourceDrv) (stopO : Nat → Bool) :
    ∀ (fuel : Nat) (frm tgt : Int) (i : Nat) (mg : Migration),
      0 ≤ tgt →
      Item.migr mg ∈ Migrate.readLoopDown s stopO fuel frm tgt i →
      0 ≤ mg.targetVersion := by
  intro fuel
  induction fuel with
  | zero => intro frm tgt i mg _ h; simp [Migrate.readLoopDown] at h
  | succ f ih =>
    intro frm tgt i mg htgt h
    rw [Migrate.readLoopDown] at h
    by_cases h1 : (tgt < frm ∧ 0 ≤ frm)
    case neg => rw [if_neg h1] at h; simp at h
    rw [if_pos h1] at h
    by_cases h2 : stopO i = true
    case pos => rw [if_pos h2] at h; simp at h
    rw [if_neg h2] at h
    rcases hP : s.Prev frm.toNat with e | p
    · simp only [hP] at h
      have hc : ¬ (e = Err.notExist ∧ tgt = -1) := by
        rintro ⟨_, h3⟩
        omega
      rw [if_neg hc] at h
      simp at h
    · simp only [hP] at h
      rcases hM : Migrate.newMigration s frm.toNat (Int.ofNat p) with e2 | mg2
      · simp only [hM] at h
        simp at h
      · simp only [hM, List.mem_cons] at h
        rcases h with h | h
        · have ht := newMigration_target s frm.toNat (Int.ofNat p) mg2 hM
          have hmg : mg = mg2 := by injection h
          rw [hmg, ht]
          exact Int.natCast_nonneg p
        · exact ih _ _ _ _ htgt h

theorem read_targets (s : SourceDrv) (stopO : Nat → Bool) (frm tgt : Int) (mg : Migration)
    (htgt : 0 ≤ tgt) (h : Item.migr mg ∈ Migrate.read s stopO frm tgt) :
    0 ≤ mg.targetVersion := by
  rw [Migrate.read] at h
  by_cases h1 : (0 ≤ frm ∧ Migrate.versionExists s frm.toNat ≠ none)
  case pos => rw [if_pos h1] at h; simp at h
  rw [if_neg h1] at h
  by_cases h2 : (0 ≤ tgt ∧ Migrate.versionExists s tgt.toNat ≠ none)
  case pos => rw [if_pos h2] at h; simp at h
  rw [if_neg h2] at h
  by_cases h3 : frm = tgt
  case pos => rw [if_pos h3] at h; simp at h
  rw [if_neg h3] at h
  by_cases h4 : frm < tgt
  · rw [if_pos h4] at h
    by_cases h5 : frm = -1
    · rw [if_pos h5] at h
      rcases hF : s.First with e | f
      · simp only [hF] at h
        simp at h
      · simp only [hF] at h
        rcases hM : Migrate.newMigration s f (Int.ofNat f) with e2 | mg2
        · simp only [hM] at h
          simp at h
        · simp only [hM, List.mem_cons] at h
          rcases h with h | h
          · have ht := newMigration_target s f (Int.ofNat f) mg2 hM
            have hmg : mg = mg2 := by injection h
            rw [hmg, ht]
            exact Int.natCast_nonneg f
          · exact readLoopUp_targets s stopO _ _ _ _ _ h
    · rw [if_neg h5] at h
      exact readLoopUp_targets s stopO _ _ _ _ _ h
  · rw [if_neg h4] at h
    exact readLoopDown_targets s stopO _ _ _ _ _ htgt h

theorem DB_run_fail (b : DBBehavior) (st : DBState) (t : Int) (bo : Option String)
    (m : String) (h : b.runErr t = some m) :
    DB.run b st t bo =
      (some (.driver m), { st with runLog := st.runLog ++ [(t, bo)] }) := by
  unfold DB.run
  rw [h]

theorem runMigrations_version_nonneg (stopO : Nat → Bool) (b : DBBehavior) :
    ∀ (items : List Item) (st : DBState) (i : Nat),
      (∀ mg, Item.migr mg ∈ items → 0 ≤ mg.targetVersion) →
      0 ≤ st.version →
      0 ≤ (Migrate.runMigrations stopO b st i items).2.version := by
  intro items
  induction items with
  | nil => intro st i _ h0; simpa [Migrate.runMigrations] using h0
  | cons item rest ih =>
    intro st i h h0
    simp only [Migrate.runMigrations]
    split
    · exact h0
    · cases item with
      | err e => exact h0
      | migr mg =>
        dsimp only
        rcases hr : b.runErr mg.targetVersion with _ | m
        · rw [DB_run_none b st mg.targetVersion mg.body hr]
          exact ih _ (i + 1) (fun m2 hm => h m2 (List.mem_cons_of_mem _ hm))
            (by
              have := h mg (List.mem_cons_self _ _)
              simpa [runOkSt] using this)
        · rw [DB_run_fail b st mg.targetVersion mg.body m hr]
          exact h0
      | other tag => exact h0

theorem unlockErr_version (e : Migrate) (b : DBBehavior) (st : DBState) (p : Option Err) :
    (Migrate.unlockErr e b st p).2.2.version = st.version := by
  rcases h : b.unlockErr with _ | m
  · rw [unlockErr_ok e b st p h]
  · rw [unlockErr_fail e b st p m h]

theorem runThenUnlock_version_nonneg (e : Migrate) (b : DBBehavior) (st : DBState)
    (stopOR : Nat → Bool) (items : List Item)
    (hk : ∀ mg, Item.migr mg ∈ items → 0 ≤ mg.targetVersion) (h0 : 0 ≤ st.version) :
    0 ≤ (Migrate.runThenUnlock e b st stopOR items).2.2.version := by
  rw [Migrate.runThenUnlock]
  rcases hrm : Migrate.runMigrations stopOR b st 0 items with ⟨oc, st1⟩
  have hv := runMigrations_version_nonneg stopOR b items st 0 hk h0
  rw [hrm] at hv
  rcases oc with _ | er | _
  · dsimp only
    rcases hue : Migrate.unlockErr e b st1 none with ⟨r, e2, st2⟩
    have hveq := unlockErr_version e b st1 none
    rw [hue] at hveq
    rw [hveq]
    exact hv
  · dsimp only
    rcases hue : Migrate.unlockErr e b st1 (some er) with ⟨r, e2, st2⟩
    have hveq := unlockErr_version e b st1 (some er)
    rw [hue] at hveq
    rw [hveq]
    exact hv
  · exact hv

/-- C9: since Migrate takes its target as an unsigned integer, the
absolute planner never emits a record with TargetVersion -1 (the
down-to-empty branch needs target -1), and consequently Migrate can lower
the version but never brings a non-empty database back to the NilVersion
state: from a version ≥ 0 the version after Migrate is still ≥ 0. -/
theorem C9_migrate_never_nil :
    (∀ (s : SourceDrv) (stopO : Nat → Bool) (frm : Int) (v : Nat) (mg : Migration),
      Item.migr mg ∈ Migrate.read s stopO frm (Int.ofNat v) →
      0 ≤ mg.targetVersion ∧ mg.targetVersion ≠ -1) ∧
    (∀ (e : Migrate) (b : DBBehavior) (st : DBState) (stopOP stopOR : Nat → Bool) (v : Nat),
      0 ≤ st.version →
      0 ≤ (Migrate.MigrateTo e b st stopOP stopOR v).2.2.version) := by
  constructor
  · intro s stopO frm v mg h
    have ht := read_targets s stopO frm (Int.ofNat v) mg (Int.natCast_nonneg v) h
    exact ⟨ht, by omega⟩
  · intro e b st stopOP stopOR v h0
    rw [Migrate.MigrateTo]
    unfold Migrate.lock
    by_cases hL : e.isLocked = true
    · rw [if_pos hL]
      exact h0
    · rw [if_neg hL]
      unfold DB.lock
      rcases hb : b.lockErr with _ | m
      · dsimp only
        by_cases hdb : st.dbIsLocked = true
        · rw [if_pos hdb]
          exact h0
        · rw [if_neg hdb]
          dsimp only
          rcases hv : b.versionErr with _ | m2
          · have hver : DB.version b
                { st with lockCalls := st.lockCalls + 1, dbIsLocked := true } =
                .ok (if st.version < 0 then -1 else st.version) := by
              unfold DB.version
              rw [hv]
            rw [hver]
            dsimp only
            refine runThenUnlock_version_nonneg _ b _ stopOR _ ?_ h0
            intro mg hm
            exact (read_targets e.src stopOP _ (Int.ofNat v) mg (Int.natCast_nonneg v) hm)
          · have hver : DB.version b
                { st with lockCalls := st.lockCalls + 1, dbIsLocked := true } =
                .error (.driver m2) := by
              unfold DB.version
              rw [hv]
            rw [hver]
            dsimp only
            rcases hue : Migrate.unlockErr { e with isLocked := true } b
                { st with lockCalls := st.lockCalls + 1, dbIsLocked := true }
                (some (.driver m2)) with ⟨r, e2, st2⟩
            have hvp := unlockErr_version { e with isLocked := true } b
              { st with lockCalls := st.lockCalls + 1, dbIsLocked := true }
              (some (.driver m2))
            rw [hue] at hvp
            rw [hvp]
            exact h0
      · dsimp only
        exact h0

/-- C9 witness: Migrate(4) from version 7 plans only records with
non-negative targets and leaves the version at 4 ≥ 0. -/
theorem C9_witness :
    (0 ≤ (Migration.mk 7 5 (some "d7")).targetVersion ∧
      (Migration.mk 7 5 (some "d7")).targetVersion ≠ -1) ∧
    0 ≤ (Migrate.MigrateTo eFix bFix { stFix with version := 7 }
        noStop noStop 4).2.2.version := by
  constructor
  · exact C9_migrate_never_nil.1 sFix noStop 7 4
      (Migration.mk 7 5 (some "d7")) (by decide)
  · exact C9_migrate_never_nil.2 eFix bFix { stFix with version := 7 }
      noStop noStop 4 (by decide)

/-! ### Sorted-index lemmas for the walk of Next/Prev over the version
filter -/

theorem filter_gt_all {L : List Nat} {v : Nat} (hall : ∀ w ∈ L, v < w) :
    L.filter (fun w => v < w) = L := by
  rw [List.filter_eq_self]
  intro w hw
  simpa using hall w hw

theorem filter_lt_nil {L : List Nat} {v : Nat} (hall : ∀ w ∈ L, v < w) :
    L.filter (fun w => w < v) = [] := by
  rw [List.filter_eq_nil_iff]
  intro w hw
  have := hall w hw
  simp
  omega

theorem filter_gt_tail {L : List Nat} (SL : List.Pairwise (· < ·) L) :
    ∀ (v n : Nat) (F' : List Nat), L.filter (fun w => v < w) = n :: F' →
      L.filter (fun w => n < w) = F' := by
  induction L with
  | nil => intro v n F' h; simp at h
  | cons a t ih =>
    intro v n F' h
    have hpa := List.pairwise_cons.mp SL
    by_cases hva : v < a
    · have htf : t.filter (fun w => v < w) = t :=
        filter_gt_all (fun w hw => lt_trans hva (hpa.1 w hw))
      rw [List.filter_cons_of_pos (by simpa using hva), htf] at h
      injection h with h1 h2
      subst h1
      subst h2
      rw [List.filter_cons_of_neg (by simp), filter_gt_all (fun w hw => hpa.1 w hw)]
    · rw [List.filter_cons_of_neg (by simpa using hva)] at h
      have hrec := ih hpa.2 v n F' h
      have hn : n ∈ t := by
        have hmem : n ∈ t.filter (fun w => v < w) := by
          rw [h]
          exact List.mem_cons_self _ _
        exact List.mem_of_mem_filter hmem
      have han : a < n := hpa.1 n hn
      rw [List.filter_cons_of_neg (by simp; omega), hrec]

theorem filter_lt_init {L : List Nat} (SL : List.Pairwise (· < ·) L) :
    ∀ (v p : Nat) (G' : List Nat), L.filter (fun w => w < v) = G' ++ [p] →
      L.filter (fun w => w < p) = G' := by
  induction L with
  | nil => intro v p G' h; simp at h
  | cons a t ih =>
    intro v p G' h
    have hpa := List.pairwise_cons.mp SL
    by_cases hav : a < v
    · rw [List.filter_cons_of_pos (by simpa using hav)] at h
      rcases hG : t.filter (fun w => w < v) with _ | ⟨g, G''⟩
      · rw [hG] at h
        have h2 : [a] = G' ++ [p] := h
        have hlen : G'.length + 1 = 1 := by
          have := congrArg List.length h2
          simpa using this.symm
        have hG' : G' = [] := List.eq_nil_of_length_eq_zero (by omega)
        subst hG'
        have hap : a = p := by simpa using h2
        subst hap
        rw [List.filter_cons_of_neg (by simp), filter_lt_nil (fun w hw => hpa.1 w hw)]
      · rw [hG] at h
        rcases G' with _ | ⟨g', G'2⟩
        · injection h with h1 h2
          simp at h2
        · injection h with h1 h2
          subst h1
          have hrec := ih hpa.2 v p G'2 (by rw [hG]; exact h2)
          have hp : p ∈ t := by
            have hmem : p ∈ t.filter (fun w => w < v) := by
              rw [hG, h2]
              exact List.mem_append_right _ (List.mem_cons_self _ _)
            exact List.mem_of_mem_filter hmem
          have hap : a < p := hpa.1 p hp
          rw [List.filter_cons_of_pos (by simpa using hap), hrec]
    · rw [List.filter_cons_of_neg (by simpa using hav)] at h
      have hrec := ih hpa.2 v p G' h
      have hp : p ∈ t := by
        have hmem : p ∈ t.filter (fun w => w < v) := by
          rw [h]
          exact List.mem_append_right _ (List.mem_cons_self _ _)
        exact List.mem_of_mem_filter hmem
      have hpv : p < v := by
        have hmem : p ∈ t.filter (fun w => w < v) := by
          rw [h]
          exact List.mem_append_right _ (List.mem_cons_self _ _)
        simpa using List.of_mem_filter hmem
      rw [List.filter_cons_of_neg (by simp; omega), hrec]

theorem head_eq_of_filter_lt_nil {L : List Nat} (SL : List.Pairwise (· < ·) L) {v : Nat}
    (hv : v ∈ L) (hG : L.filter (fun w => w < v) = []) : L.head? = some v := by
  cases L with
  | nil => simp at hv
  | cons a t =>
    rcases List.mem_cons.mp hv with rfl | hvt
    · rfl
    · have hpa := List.pairwise_cons.mp SL
      have hav : a < v := hpa.1 v hvt
      rw [List.filter_cons_of_pos (by simpa using hav)] at hG
      simp at hG

theorem filter_lt_getLast {L : List Nat} (SL : List.Pairwise (· < ·) L) (hne : L ≠ []) :
    L.filter (fun w => w < L.getLast hne) = L.dropLast := by
  induction L with
  | nil => exact absurd rfl hne
  | cons a t ih =>
    have hpa := List.pairwise_cons.mp SL
    cases t with
    | nil => simp
    | cons b t2 =>
      have hne2 : b :: t2 ≠ [] := by simp
      have hlast : (a :: b :: t2).getLast hne = (b :: t2).getLast hne2 :=
        List.getLast_cons hne2
      rw [hlast]
      have hmem : (b :: t2).getLast hne2 ∈ b :: t2 := List.getLast_mem hne2
      have haL : a < (b :: t2).getLast hne2 := hpa.1 _ hmem
      rw [List.filter_cons_of_pos (by simpa using haL), ih hpa.2 hne2]
      simp

theorem ofNat_cast (n : Nat) : Int.ofNat n = (n : Int) := rfl

theorem newMigration_up (s : SourceDrv) (w : Nat) (h : s.upErr w = none) :
    Migrate.newMigration s w (Int.ofNat w) = .ok (mkUpRec s w) := by
  unfold Migrate.newMigration NewMigration mkUpRec SourceDrv.ReadUp
  rw [if_pos (show (w : Int) ≤ Int.ofNat w from le_refl _), h]
  rcases hb : s.upBody w with _ | bo <;> simp

theorem newMigration_down (s : SourceDrv) (w : Nat) (t : Int) (h : s.downErr w = none)
    (ht : t < (w : Int)) :
    Migrate.newMigration s w t = .ok (mkDownRec s w t) := by
  unfold Migrate.newMigration NewMigration mkDownRec SourceDrv.ReadDown
  rw [if_neg (by omega : ¬ (w : Int) ≤ t), h]
  rcases hb : s.downBody w with _ | bo <;> simp

theorem readUpLoop_neg (s : SourceDrv) (SL : List.Pairwise (· < ·) s.versions)
    (HE : ∀ w ∈ s.versions, s.upErr w = none) :
    ∀ (fuel : Nat) (v : Nat) (count : Nat),
      (s.versions.filter (fun w => v < w)).length < fuel →
      Migrate.readUpLoop s noStop fuel (Int.ofNat v) (-1) count =
        (s.versions.filter (fun w => v < w)).map (fun w => Item.migr (mkUpRec s w)) ++
          (if count = 0 ∧ s.versions.filter (fun w => v < w) = [] then
            [Item.err Err.noChange] else []) := by
  intro fuel
  induction fuel with
  | zero => intro v count h; exact absurd h (Nat.not_lt_zero _)
  | succ f ih =>
    intro v count hfuel
    rw [Migrate.readUpLoop, if_pos (Or.inr rfl)]
    simp only [noStop, Bool.false_eq_true, if_false]
    rw [if_neg (by rw [ofNat_cast]; omega : ¬ (Int.ofNat v) = -1)]
    have htn : (Int.ofNat v).toNat = v := rfl
    rw [htn]
    rcases hF : s.versions.filter (fun w => v < w) with _ | ⟨n, F'⟩
    · have hN : s.Next v = .error .notExist := by
        unfold SourceDrv.Next
        rw [hF]
        rfl
      simp only [hN]
      rcases count with _ | c <;> simp
    · have hN : s.Next v = .ok n := by
        unfold SourceDrv.Next
        rw [hF]
        rfl
      have hnL : n ∈ s.versions := by
        have : n ∈ s.versions.filter (fun w => v < w) := by
          rw [hF]
          exact List.mem_cons_self _ _
        exact List.mem_of_mem_filter this
      have hM := newMigration_up s n (HE n hnL)
      simp only [hN, hM]
      have hflt : s.versions.filter (fun w => n < w) = F' := filter_gt_tail SL v n F' hF
      have hrec := ih n (count + 1) (by rw [hflt]; rw [hF] at hfuel; simp at hfuel ⊢; omega)
      rw [hrec, hflt]
      simp

theorem readUpLoop_short (s : SourceDrv) (SL : List.Pairwise (· < ·) s.versions)
    (HE : ∀ w ∈ s.versions, s.upErr w = none) :
    ∀ (fuel : Nat) (v : Nat) (count : Nat) (limit : Int),
      0 < limit → (count : Int) < limit →
      ((s.versions.filter (fun w => v < w)).length : Int) < limit - count →
      (s.versions.filter (fun w => v < w)).length < fuel →
      Migrate.readUpLoop s noStop fuel (Int.ofNat v) limit count =
        (s.versions.filter (fun w => v < w)).map (fun w => Item.migr (mkUpRec s w)) ++
          [if count + (s.versions.filter (fun w => v < w)).length = 0 then
            Item.err Err.notExist
          else Item.err (.shortLimit
            (limit - count - (s.versions.filter (fun w => v < w)).length).toNat)] := by
  intro fuel
  induction fuel with
  | zero => intro v count limit _ _ _ h; exact absurd h (Nat.not_lt_zero _)
  | succ f ih =>
    intro v count limit hlim hcnt hshort hfuel
    rw [Migrate.readUpLoop, if_pos (Or.inl hcnt)]
    simp only [noStop, Bool.false_eq_true, if_false]
    rw [if_neg (by rw [ofNat_cast]; omega : ¬ (Int.ofNat v) = -1)]
    have htn : (Int.ofNat v).toNat = v := rfl
    rw [htn]
    rcases hF : s.versions.filter (fun w => v < w) with _ | ⟨n, F'⟩
    · have hN : s.Next v = .error .notExist := by
        unfold SourceDrv.Next
        rw [hF]
        rfl
      simp only [hN, if_true]
      rw [if_neg (by omega : ¬ (limit = -1 ∧ count = 0)),
        if_neg (by omega : ¬ limit = -1)]
      rcases count with _ | c
      · rw [if_pos (⟨hlim, rfl⟩ : 0 < limit ∧ (0 : Nat) = 0)]
        simp
      · rw [if_neg (by simp : ¬ (0 < limit ∧ (Nat.succ c) = 0)), if_pos hcnt]
        simp
    · have hN : s.Next v = .ok n := by
        unfold SourceDrv.Next
        rw [hF]
        rfl
      have hnL : n ∈ s.versions := by
        have : n ∈ s.versions.filter (fun w => v < w) := by
          rw [hF]
          exact List.mem_cons_self _ _
        exact List.mem_of_mem_filter this
      have hM := newMigration_up s n (HE n hnL)
      simp only [hN, hM]
      have hflt : s.versions.filter (fun w => n < w) = F' := filter_gt_tail SL v n F' hF
      have hlenF : (s.versions.filter (fun w => v < w)).length = F'.length + 1 := by
        rw [hF]
        rfl
      rw [hlenF] at hshort hfuel
      have hrec := ih n (count + 1) limit hlim (by push_cast at hshort ⊢; omega)
        (by rw [hflt]; push_cast at hshort; omega) (by rw [hflt]; omega)
      rw [hrec, hflt]
      simp only [List.map_cons, List.cons_append, List.length_cons]
      rw [if_neg (by omega : ¬ count + 1 + F'.length = 0),
        if_neg (by omega : ¬ count + (F'.length + 1) = 0)]
      have harg2 : limit - (↑(count + 1) : Int) - ↑F'.length =
          limit - ↑count - ↑(F'.length + 1) := by
        push_cast
        ring
      rw [harg2]

theorem readDownLoop_neg (s : SourceDrv) (SL : List.Pairwise (· < ·) s.versions)
    (HEd : ∀ w ∈ s.versions, s.downErr w = none) :
    ∀ (fuel : Nat) (v : Nat) (count : Nat), v ∈ s.versions →
      (s.versions.filter (fun w => w < v)).length < fuel →
      Migrate.readDownLoop s noStop fuel (Int.ofNat v) (-1) count =
        (downPairs s.versions v).map (fun pr => Item.migr (mkDownRec s pr.1 pr.2)) := by
  intro fuel
  induction fuel with
  | zero => intro v count _ h; exact absurd h (Nat.not_lt_zero _)
  | succ f ih =>
    intro v count hv hfuel
    rw [Migrate.readDownLoop, if_pos (Or.inr rfl)]
    simp only [noStop, Bool.false_eq_true, if_false]
    have htn : (Int.ofNat v).toNat = v := rfl
    rw [htn]
    rcases List.eq_nil_or_concat (s.versions.filter (fun w => w < v)) with hG | ⟨G', p, hG⟩
    · have hP : s.Prev v = .error .notExist := by
        unfold SourceDrv.Prev
        rw [hG]
        rfl
      have hhead : s.versions.head? = some v := head_eq_of_filter_lt_nil SL hv hG
      have hF : s.First = .ok v := by
        unfold SourceDrv.First
        rw [hhead]
      have hM : Migrate.newMigration s v (-1) = .ok (mkDownRec s v (-1)) :=
        newMigration_down s v (-1) (HEd v hv) (by omega)
      simp only [hP, if_true, hF, hM]
      rw [if_pos (Or.inl trivial), if_neg (by omega : ¬ ((count : Int) + 1) < -1)]
      unfold downPairs
      rw [hG]
      simp
    · rw [List.concat_eq_append] at hG
      have hP : s.Prev v = .ok p := by
        unfold SourceDrv.Prev
        rw [hG, List.getLast?_concat]
      have hpmem : p ∈ s.versions.filter (fun w => w < v) := by
        rw [hG]
        exact List.mem_append_right _ (List.mem_cons_self _ _)
      have hpL : p ∈ s.versions := List.mem_of_mem_filter hpmem
      have hpv : p < v := by simpa using List.of_mem_filter hpmem
      have hM : Migrate.newMigration s v (Int.ofNat p) = .ok (mkDownRec s v (Int.ofNat p)) :=
        newMigration_down s v (Int.ofNat p) (HEd v hv)
          (by rw [ofNat_cast]; exact_mod_cast hpv)
      simp only [hP, hM]
      have hflt : s.versions.filter (fun w => w < p) = G' := filter_lt_init SL v p G' hG
      have hrec := ih p (count + 1) hpL
        (by rw [hflt]; rw [hG] at hfuel; simp at hfuel; omega)
      rw [hrec]
      unfold downPairs
      rw [hG, hflt]
      simp only [List.reverse_concat]
      rfl

theorem readUp_nil_all (s : SourceDrv) (SL : List.Pairwise (· < ·) s.versions)
    (HE : ∀ w ∈ s.versions, s.upErr w = none) (hne : s.versions ≠ []) :
    Migrate.readUp s noStop (-1) (-1) =
      s.versions.map (fun w => Item.migr (mkUpRec s w)) := by
  rw [Migrate.readUp]
  rw [if_neg (by norm_num : ¬ ((0 : Int) ≤ -1 ∧
    Migrate.versionExists s (Int.toNat (-1)) ≠ none))]
  rw [if_neg (by norm_num : ¬ (-1 : Int) = 0)]
  rw [Migrate.readUpLoop]
  rw [if_pos (Or.inr rfl)]
  simp only [noStop, Bool.false_eq_true, if_false]
  rw [if_pos trivial]
  rcases hL : s.versions with _ | ⟨h0, t⟩
  · exact absurd hL hne
  · have hF : s.First = .ok h0 := by
      unfold SourceDrv.First
      rw [hL]
      rfl
    have hM := newMigration_up s h0 (HE h0 (by rw [hL]; exact List.mem_cons_self _ _))
    simp only [hF, hM]
    have hSL2 : List.Pairwise (· < ·) (h0 :: t) := by rw [← hL]; exact SL
    have htail : s.versions.filter (fun w => h0 < w) = t := by
      rw [hL, List.filter_cons_of_neg (by simp)]
      exact filter_gt_all (fun w hw => (List.pairwise_cons.mp hSL2).1 w hw)
    have hrec := readUpLoop_neg s SL HE (h0 :: t).length h0 1
      (by rw [htail]; simp)
    simp only [Nat.zero_add]
    rw [hrec, htail]
    simp

theorem readDown_last_all (s : SourceDrv) (SL : List.Pairwise (· < ·) s.versions)
    (HEd : ∀ w ∈ s.versions, s.downErr w = none) (hne : s.versions ≠ [])
    (hex : Migrate.versionExists s (s.versions.getLast hne) = none) :
    Migrate.readDown s noStop (Int.ofNat (s.versions.getLast hne)) (-1) =
      (downPairs s.versions (s.versions.getLast hne)).map
        (fun pr => Item.migr (mkDownRec s pr.1 pr.2)) := by
  rw [Migrate.readDown]
  rw [if_neg (by
    intro hc
    exact hc.2 hex)]
  rw [if_neg (by norm_num : ¬ (-1 : Int) = 0)]
  rw [if_neg (by
    intro hc
    have h1 := hc.1
    rw [ofNat_cast] at h1
    omega)]
  rw [if_neg (by
    intro hc
    have h2 := hc.2
    omega)]
  exact readDownLoop_neg s SL HEd (s.versions.length + 1)
    (s.versions.getLast hne) 0 (List.getLast_mem hne)
    (by
      have := List.length_filter_le (fun w => decide (w < s.versions.getLast hne))
        s.versions
      omega)

/-! ### The runner applied to a clean list of migrations -/

theorem applyMigs_cons (st : DBState) (mg : Migration) (migs : List Migration) :
    applyMigs st (mg :: migs) = applyMigs (runOkSt st mg.targetVersion mg.body) migs := rfl

theorem runMigrations_migrs (b : DBBehavior) :
    ∀ (migs : List Migration) (st : DBState) (i : Nat) (rest : List Item),
      (∀ mg ∈ migs, b.runErr mg.targetVersion = none) →
      Migrate.runMigrations noStop b st i (migs.map Item.migr ++ rest) =
        Migrate.runMigrations noStop b (applyMigs st migs) (i + migs.length) rest := by
  intro migs
  induction migs with
  | nil => intro st i rest _; simp [applyMigs]
  | cons mg t ih =>
    intro st i rest hrun
    have hr : b.runErr mg.targetVersion = none := hrun mg (List.mem_cons_self _ _)
    simp only [List.map_cons, List.cons_append, Migrate.runMigrations, noStop,
      Bool.false_eq_true, if_false, List.append_eq,
      DB_run_none b st mg.targetVersion mg.body hr]
    rw [ih (runOkSt st mg.targetVersion mg.body) (i + 1) rest
      (fun m hm => hrun m (List.mem_cons_of_mem _ hm))]
    rw [applyMigs_cons]
    congr 1
    simp
    omega

theorem applyMigs_fields :
    ∀ (migs : List Migration) (st : DBState),
      (applyMigs st migs).runLog =
        st.runLog ++ migs.map (fun mg => (mg.targetVersion, mg.body)) ∧
      (applyMigs st migs).migrationSequence =
        st.migrationSequence ++ migs.filterMap Migration.body ∧
      (applyMigs st migs).version =
        (migs.map Migration.targetVersion).getLastD st.version ∧
      (applyMigs st migs).lockCalls = st.lockCalls ∧
      (applyMigs st migs).unlockCalls = st.unlockCalls ∧
      (applyMigs st migs).dbIsLocked = st.dbIsLocked := by
  intro migs
  induction migs with
  | nil => intro st; simp [applyMigs]
  | cons mg t ih =>
    intro st
    rw [applyMigs_cons]
    have h := ih (runOkSt st mg.targetVersion mg.body)
    refine ⟨?_, ?_, ?_, ?_, ?_, ?_⟩
    · rw [h.1]
      simp [runOkSt]
    · rw [h.2.1]
      rcases hb : mg.body with _ | bo <;> simp [runOkSt, hb]
    · rw [h.2.2.1]
      rw [List.map_cons, List.getLastD_cons]
      simp [runOkSt]
    · rw [h.2.2.2.1]
      simp [runOkSt]
    · rw [h.2.2.2.2.1]
      simp [runOkSt]
    · rw [h.2.2.2.2.2]
      simp [runOkSt]

theorem runThenUnlock_allmigr (e1 : Migrate) (b : DBBehavior) (st1 : DBState)
    (migs : List Migration) (hrun : ∀ mg ∈ migs, b.runErr mg.targetVersion = none)
    (hu : b.unlockErr = none) :
    Migrate.runThenUnlock e1 b st1 noStop (migs.map Item.migr) =
      (.ret none, { e1 with isLocked := false },
        { applyMigs st1 migs with
          unlockCalls := (applyMigs st1 migs).unlockCalls + 1, dbIsLocked := false }) := by
  rw [Migrate.runThenUnlock]
  have h1 : Migrate.runMigrations noStop b st1 0 (migs.map Item.migr) =
      (.ok, applyMigs st1 migs) := by
    have h2 := runMigrations_migrs b migs st1 0 [] hrun
    rw [List.append_nil] at h2
    rw [h2]
    rfl
  rw [h1]
  dsimp only
  rw [unlockErr_ok _ b _ none hu]

theorem runThenUnlock_short (e1 : Migrate) (b : DBBehavior) (st1 : DBState)
    (migs : List Migration) (er : Err)
    (hrun : ∀ mg ∈ migs, b.runErr mg.targetVersion = none)
    (hu : b.unlockErr = none) :
    Migrate.runThenUnlock e1 b st1 noStop (migs.map Item.migr ++ [Item.err er]) =
      (.ret (some er), { e1 with isLocked := false },
        { applyMigs st1 migs with
          unlockCalls := (applyMigs st1 migs).unlockCalls + 1, dbIsLocked := false }) := by
  rw [Migrate.runThenUnlock]
  have h1 : Migrate.runMigrations noStop b st1 0 (migs.map Item.migr ++ [Item.err er]) =
      (.fail er, applyMigs st1 migs) := by
    rw [runMigrations_migrs b migs st1 0 [Item.err er] hrun]
    rfl
  rw [h1]
  dsimp only
  rw [unlockErr_ok _ b _ (some er) hu]

theorem engine_relock_eta (e : Migrate) (he : e.isLocked = false) :
    { { e with isLocked := true } with isLocked := false } = e := by
  cases e with
  | mk src lk =>
    have h2 : lk = false := he
    rw [h2]

/-- C3: an up plan with positive limit n from a present version whose
Next chain is exhausted after c records with 0 < c < n emits those c
records followed by ErrShortLimit{n - c} and stops; through Steps the
driver sees exactly the c Run calls and the operation returns
ShortLimit{n - c}. -/
theorem C3_short_limit (e : Migrate) (b : DBBehavior) (st : DBState) (n : Int) (v : Nat)
    (he : e.isLocked = false) (hb : b.lockErr = none) (hdb : st.dbIsLocked = false)
    (hv : b.versionErr = none) (hu : b.unlockErr = none)
    (SL : List.Pairwise (· < ·) e.src.versions)
    (HE : ∀ w ∈ e.src.versions, e.src.upErr w = none)
    (hex : Migrate.versionExists e.src v = none)
    (hver : st.version = Int.ofNat v)
    (hrun : ∀ w ∈ e.src.versions, b.runErr (Int.ofNat w) = none)
    (hc0 : 0 < (e.src.versions.filter (fun w => v < w)).length)
    (hcn : ((e.src.versions.filter (fun w => v < w)).length : Int) < n) :
    Migrate.readUp e.src noStop (Int.ofNat v) n =
      (e.src.versions.filter (fun w => v < w)).map
        (fun w => Item.migr (mkUpRec e.src w)) ++
      [Item.err (.shortLimit
        (n - (e.src.versions.filter (fun w => v < w)).length).toNat)] ∧
    (Migrate.Steps e b st noStop noStop n).1 =
      .ret (some (.shortLimit
        (n - (e.src.versions.filter (fun w => v < w)).length).toNat)) ∧
    (Migrate.Steps e b st noStop noStop n).2.2.runLog =
      st.runLog ++ (e.src.versions.filter (fun w => v < w)).map
        (fun w => (Int.ofNat w, e.src.upBody w)) := by
  have hn : 0 < n := by omega
  have hplan : Migrate.readUp e.src noStop (Int.ofNat v) n =
      (e.src.versions.filter (fun w => v < w)).map
        (fun w => Item.migr (mkUpRec e.src w)) ++
      [Item.err (.shortLimit
        (n - (e.src.versions.filter (fun w => v < w)).length).toNat)] := by
    rw [Migrate.readUp]
    rw [if_neg (by
      intro hc
      exact hc.2 (by
        have htn : (Int.ofNat v).toNat = v := rfl
        rw [htn]
        exact hex))]
    rw [if_neg (by omega : ¬ n = 0)]
    have hshort := readUpLoop_short e.src SL HE (e.src.versions.length + 1) v 0 n hn
      (by push_cast; omega)
      (by push_cast; push_cast at hcn; omega)
      (by
        have := List.length_filter_le (fun w => decide (v < w)) e.src.versions
        omega)
    rw [hshort]
    rw [if_neg (by omega : ¬ 0 + (e.src.versions.filter (fun w => v < w)).length = 0)]
    have harg : n - ((0 : Nat) : Int) -
        (e.src.versions.filter (fun w => v < w)).length =
        n - (e.src.versions.filter (fun w => v < w)).length := by
      push_cast
      ring
    rw [harg]
  refine ⟨hplan, ?_⟩
  rw [Migrate.Steps, if_neg (by omega : ¬ n = 0), lock_ok e b st he hb hdb]
  dsimp only
  have hver2 : DB.version b { st with lockCalls := st.lockCalls + 1, dbIsLocked := true } =
      .ok (Int.ofNat v) := by
    unfold DB.version
    rw [hv]
    have hnn : ¬ ((Int.ofNat v) < 0) := by
      rw [ofNat_cast]
      omega
    simp [hver, hnn]
  rw [hver2]
  dsimp only
  rw [if_pos hn, hplan]
  have hmm : (e.src.versions.filter (fun w => v < w)).map
      (fun w => Item.migr (mkUpRec e.src w)) =
      ((e.src.versions.filter (fun w => v < w)).map
        (fun w => mkUpRec e.src w)).map Item.migr := by
    rw [List.map_map]
    rfl
  rw [hmm]
  rw [runThenUnlock_short _ b _ _ _
    (by
      intro mg hm
      rcases List.mem_map.mp hm with ⟨w, hw, rfl⟩
      exact hrun w (List.mem_of_mem_filter hw))
    hu]
  have hfields := applyMigs_fields
    ((e.src.versions.filter (fun w => v < w)).map (fun w => mkUpRec e.src w))
    { st with lockCalls := st.lockCalls + 1, dbIsLocked := true }
  refine ⟨rfl, ?_⟩
  dsimp only
  rw [hfields.1]
  rw [List.map_map]
  rfl

/-- C3 witness: scenario S4 — from version 3 over {1,3,4,5,7}, Steps(10)
plans Run(4), Run(5), Run(7) and returns ShortLimit{7}. -/
theorem C3_witness :
    Migrate.readUp sFix noStop 3 10 =
      [Item.migr { version := 4, targetVersion := 4, body := some "u4" },
       Item.migr { version := 5, targetVersion := 5, body := some "u5" },
       Item.migr { version := 7, targetVersion := 7, body := some "u7" },
       Item.err (Err.shortLimit 7)] ∧
    (Migrate.Steps eFix bFix { stFix with version := 3 } noStop noStop 10).1 =
      .ret (some (Err.shortLimit 7)) ∧
    (Migrate.Steps eFix bFix { stFix with version := 3 } noStop noStop 10).2.2.runLog =
      [(4, some "u4"), (5, some "u5"), (7, some "u7")] := by
  have h := C3_short_limit eFix bFix { stFix with version := 3 } 10 3
    rfl rfl rfl rfl rfl (by decide) (fun w _ => rfl) (by decide) rfl
    (fun w _ => rfl) (by decide) (by decide)
  exact ⟨h.1, h.2.1, h.2.2⟩

theorem versionExists_of_up (s : SourceDrv) (v : Nat) (hupe : s.upErr v = none)
    (x : String) (hupb : s.upBody v = some x) : Migrate.versionExists s v = none := by
  unfold Migrate.versionExists SourceDrv.ReadUp
  rw [hupe, hupb]

theorem Up_clean (e : Migrate) (b : DBBehavior) (st : DBState)
    (he : e.isLocked = false) (hb : b.lockErr = none) (hdb : st.dbIsLocked = false)
    (hv : b.versionErr = none) (hu : b.unlockErr = none)
    (SL : List.Pairwise (· < ·) e.src.versions)
    (HE : ∀ w ∈ e.src.versions, e.src.upErr w = none)
    (hrun : ∀ w ∈ e.src.versions, b.runErr (Int.ofNat w) = none)
    (hne : e.src.versions ≠ []) (hver : st.version = -1) :
    Migrate.Up e b st noStop noStop =
      (.ret none, e,
        { applyMigs { st with lockCalls := st.lockCalls + 1, dbIsLocked := true }
            (e.src.versions.map (fun w => mkUpRec e.src w)) with
          unlockCalls :=
            (applyMigs { st with lockCalls := st.lockCalls + 1, dbIsLocked := true }
              (e.src.versions.map (fun w => mkUpRec e.src w))).unlockCalls + 1,
          dbIsLocked := false }) := by
  rw [Migrate.Up, lock_ok e b st he hb hdb]
  dsimp only
  have hver2 : DB.version b
      { st with lockCalls := st.lockCalls + 1, dbIsLocked := true } = .ok (-1) := by
    unfold DB.version
    rw [hv]
    simp [hver]
  rw [hver2]
  dsimp only
  rw [readUp_nil_all e.src SL HE hne]
  have hmm : e.src.versions.map (fun w => Item.migr (mkUpRec e.src w)) =
      (e.src.versions.map (fun w => mkUpRec e.src w)).map Item.migr := by
    rw [List.map_map]
    rfl
  rw [hmm, runThenUnlock_allmigr _ b _ _
    (by
      intro mg hm
      rcases List.mem_map.mp hm with ⟨w, hw, rfl⟩
      exact hrun w hw)
    hu, engine_relock_eta e he]

theorem Down_clean (e : Migrate) (b : DBBehavior) (st : DBState)
    (he : e.isLocked = false) (hb : b.lockErr = none) (hdb : st.dbIsLocked = false)
    (hv : b.versionErr = none) (hu : b.unlockErr = none)
    (SL : List.Pairwise (· < ·) e.src.versions)
    (HEd : ∀ w ∈ e.src.versions, e.src.downErr w = none)
    (hne : e.src.versions ≠ [])
    (hex : Migrate.versionExists e.src (e.src.versions.getLast hne) = none)
    (hrund : ∀ pr ∈ downPairs e.src.versions (e.src.versions.getLast hne),
      b.runErr pr.2 = none)
    (hver : st.version = Int.ofNat (e.src.versions.getLast hne)) :
    Migrate.Down e b st noStop noStop =
      (.ret none, e,
        { applyMigs { st with lockCalls := st.lockCalls + 1, dbIsLocked := true }
            ((downPairs e.src.versions (e.src.versions.getLast hne)).map
              (fun pr => mkDownRec e.src pr.1 pr.2)) with
          unlockCalls :=
            (applyMigs { st with lockCalls := st.lockCalls + 1, dbIsLocked := true }
              ((downPairs e.src.versions (e.src.versions.getLast hne)).map
                (fun pr => mkDownRec e.src pr.1 pr.2))).unlockCalls + 1,
          dbIsLocked := false }) := by
  rw [Migrate.Down, lock_ok e b st he hb hdb]
  dsimp only
  have hver2 : DB.version b
      { st with lockCalls := st.lockCalls + 1, dbIsLocked := true } =
      .ok (Int.ofNat (e.src.versions.getLast hne)) := by
    unfold DB.version
    rw [hv]
    have hnn : ¬ ((Int.ofNat (e.src.versions.getLast hne)) < 0) := by
      rw [ofNat_cast]
      omega
    simp [hver, hnn]
  rw [hver2]
  dsimp only
  rw [readDown_last_all e.src SL HEd hne hex]
  have hmm : (downPairs e.src.versions (e.src.versions.getLast hne)).map
      (fun pr => Item.migr (mkDownRec e.src pr.1 pr.2)) =
      ((downPairs e.src.versions (e.src.versions.getLast hne)).map
        (fun pr => mkDownRec e.src pr.1 pr.2)).map Item.migr := by
    rw [List.map_map]
    rfl
  rw [hmm, runThenUnlock_allmigr _ b _ _
    (by
      intro mg hm
      rcases List.mem_map.mp hm with ⟨pr, hpr, rfl⟩
      exact hrund pr hpr)
    hu, engine_relock_eta e he]

/-! ### Shape of the down walk from the last version -/

theorem zip_snd : ∀ (l1 : List Nat) (l2 : List Int), l1.length = l2.length →
    (l1.zip l2).map Prod.snd = l2 := by
  intro l1
  induction l1 with
  | nil =>
    intro l2 h
    cases l2 with
    | nil => rfl
    | cons b t => simp at h
  | cons a t ih =>
    intro l2 h
    cases l2 with
    | nil => simp at h
    | cons b t2 =>
      simp only [List.zip_cons_cons, List.map_cons]
      rw [ih t2 (by simpa using h)]

theorem zip_fst : ∀ (l1 : List Nat) (l2 : List Int), l1.length = l2.length →
    (l1.zip l2).map Prod.fst = l1 := by
  intro l1
  induction l1 with
  | nil => intro l2 h; rfl
  | cons a t ih =>
    intro l2 h
    cases l2 with
    | nil => simp at h
    | cons b t2 =>
      simp only [List.zip_cons_cons, List.map_cons]
      rw [ih t2 (by simpa using h)]

theorem downPairs_snd (L : List Nat) (v : Nat) :
    (downPairs L v).map Prod.snd =
      (L.filter (fun w => w < v)).reverse.map Int.ofNat ++ [-1] := by
  unfold downPairs
  apply zip_snd
  simp

theorem downPairs_fst (L : List Nat) (v : Nat) :
    (downPairs L v).map Prod.fst = v :: (L.filter (fun w => w < v)).reverse := by
  unfold downPairs
  apply zip_fst
  simp

theorem reverse_eq_getLast_cons (L : List Nat) (hne : L ≠ []) :
    L.reverse = L.getLast hne :: L.dropLast.reverse := by
  conv_lhs => rw [← List.dropLast_append_getLast hne]
  rw [List.reverse_append]
  simp

theorem getLastD_map_getLast (L : List Nat) (f : Nat → Int) (hne : L ≠ []) (d : Int) :
    (L.map f).getLastD d = f (L.getLast hne) := by
  induction L generalizing d with
  | nil => exact absurd rfl hne
  | cons a t ih =>
    cases t with
    | nil => rfl
    | cons b t2 =>
      rw [List.map_cons, List.getLastD_cons,
        List.getLast_cons (show b :: t2 ≠ [] by simp), ih (by simp) (f a)]

theorem filterMap_eq_map_of {α β : Type} (l : List α) (g : α → Option β) (f : α → β)
    (h : ∀ x ∈ l, g x = some (f x)) : l.filterMap g = l.map f := by
  induction l with
  | nil => rfl
  | cons a t ih =>
    rw [List.filterMap_cons, h a (List.mem_cons_self _ _), List.map_cons,
      ih (fun x hx => h x (List.mem_cons_of_mem _ hx))]

theorem flip_u (w : Nat) : flipDir ("u" ++ toString w) = "d" ++ toString w := rfl

theorem flip_d (w : Nat) : flipDir ("d" ++ toString w) = "u" ++ toString w := rfl

theorem palindrome_updown (L : List Nat) :
    ((L.map (fun w => "u" ++ toString w)) ++
      (L.reverse.map (fun w => "d" ++ toString w))).reverse.map flipDir =
    (L.map (fun w => "u" ++ toString w)) ++
      (L.reverse.map (fun w => "d" ++ toString w)) := by
  rw [List.reverse_append, List.map_append]
  have h1 : (L.reverse.map (fun w => "d" ++ toString w)).reverse =
      L.map (fun w => "d" ++ toString w) := by
    rw [← List.map_reverse, List.reverse_reverse]
  have h2 : (L.map (fun w => "u" ++ toString w)).reverse =
      L.reverse.map (fun w => "u" ++ toString w) := by
    rw [← List.map_reverse]
  rw [h1, h2, List.map_map, List.map_map]
  have h3 : (flipDir ∘ fun w => "d" ++ toString w) = fun w : Nat => "u" ++ toString w := by
    funext w
    exact flip_d w
  have h4 : (flipDir ∘ fun w => "u" ++ toString w) = fun w : Nat => "d" ++ toString w := by
    funext w
    exact flip_u w
  rw [h3, h4]

/-- C2 round trip: over any non-empty sorted source index with
instrumented up/down payloads ("u<v>" / "d<v>") and a fresh stub database
at NilVersion, Up() followed by Down() succeeds, leaves the database at
NilVersion (-1), and the payload sequence the driver observed is the up
walk followed by the mirrored down walk — a palindrome under direction
flip: reading the observed sequence backwards with directions flipped
reproduces it exactly. -/
theorem C2_round_trip (e : Migrate) (b : DBBehavior) (st : DBState)
    (he : e.isLocked = false) (hb : b.lockErr = none) (hdb : st.dbIsLocked = false)
    (hv : b.versionErr = none) (hu : b.unlockErr = none)
    (hrall : ∀ t : Int, b.runErr t = none)
    (SL : List.Pairwise (· < ·) e.src.versions)
    (HEu : ∀ w ∈ e.src.versions, e.src.upErr w = none)
    (HEd : ∀ w ∈ e.src.versions, e.src.downErr w = none)
    (HBu : ∀ w ∈ e.src.versions, e.src.upBody w = some ("u" ++ toString w))
    (HBd : ∀ w ∈ e.src.versions, e.src.downBody w = some ("d" ++ toString w))
    (hne : e.src.versions ≠ []) (hver : st.version = -1)
    (hseq : st.migrationSequence = []) :
    (Migrate.Up e b st noStop noStop).1 = .ret none ∧
    (Migrate.Down (Migrate.Up e b st noStop noStop).2.1 b
        (Migrate.Up e b st noStop noStop).2.2 noStop noStop).1 = .ret none ∧
    (Migrate.Down (Migrate.Up e b st noStop noStop).2.1 b
        (Migrate.Up e b st noStop noStop).2.2 noStop noStop).2.2.version = -1 ∧
    (Migrate.Down (Migrate.Up e b st noStop noStop).2.1 b
        (Migrate.Up e b st noStop noStop).2.2 noStop noStop).2.2.migrationSequence =
      e.src.versions.map (fun w => "u" ++ toString w) ++
        e.src.versions.reverse.map (fun w => "d" ++ toString w) ∧
    ((Migrate.Down (Migrate.Up e b st noStop noStop).2.1 b
        (Migrate.Up e b st noStop noStop).2.2 noStop noStop).2.2.migrationSequence).reverse.map
      flipDir =
      (Migrate.Down (Migrate.Up e b st noStop noStop).2.1 b
        (Migrate.Up e b st noStop noStop).2.2 noStop noStop).2.2.migrationSequence := by
  have hUp := Up_clean e b st he hb hdb hv hu SL HEu (fun w _ => hrall _) hne hver
  have hfA := applyMigs_fields (e.src.versions.map (fun w => mkUpRec e.src w))
    { st with lockCalls := st.lockCalls + 1, dbIsLocked := true }
  have htargetsA : (e.src.versions.map (fun w => mkUpRec e.src w)).map
      Migration.targetVersion = e.src.versions.map Int.ofNat := by
    rw [List.map_map]
    rfl
  have hverA : (applyMigs { st with lockCalls := st.lockCalls + 1, dbIsLocked := true }
      (e.src.versions.map (fun w => mkUpRec e.src w))).version =
      Int.ofNat (e.src.versions.getLast hne) := by
    rw [hfA.2.2.1, htargetsA, getLastD_map_getLast e.src.versions Int.ofNat hne]
  have hseqA : (applyMigs { st with lockCalls := st.lockCalls + 1, dbIsLocked := true }
      (e.src.versions.map (fun w => mkUpRec e.src w))).migrationSequence =
      e.src.versions.map (fun w => "u" ++ toString w) := by
    rw [hfA.2.1, hseq, List.nil_append, List.filterMap_map]
    exact filterMap_eq_map_of e.src.versions _ _ (fun w hw => HBu w hw)
  have hex : Migrate.versionExists e.src (e.src.versions.getLast hne) = none :=
    versionExists_of_up e.src _ (HEu _ (List.getLast_mem hne)) _
      (HBu _ (List.getLast_mem hne))
  rw [hUp]
  have hDown := Down_clean e b
    ({ applyMigs { st with lockCalls := st.lockCalls + 1, dbIsLocked := true }
        (e.src.versions.map (fun w => mkUpRec e.src w)) with
      unlockCalls :=
        (applyMigs { st with lockCalls := st.lockCalls + 1, dbIsLocked := true }
          (e.src.versions.map (fun w => mkUpRec e.src w))).unlockCalls + 1,
      dbIsLocked := false })
    he hb rfl hv hu SL HEd hne hex (fun pr _ => hrall _) hverA
  rw [hDown]
  dsimp only
  have hfD := applyMigs_fields
    ((downPairs e.src.versions (e.src.versions.getLast hne)).map
      (fun pr => mkDownRec e.src pr.1 pr.2))
    { applyMigs { st with lockCalls := st.lockCalls + 1, dbIsLocked := true }
        (e.src.versions.map (fun w => mkUpRec e.src w)) with
      lockCalls :=
        (applyMigs { st with lockCalls := st.lockCalls + 1, dbIsLocked := true }
          (e.src.versions.map (fun w => mkUpRec e.src w))).lockCalls + 1,
      unlockCalls :=
        (applyMigs { st with lockCalls := st.lockCalls + 1, dbIsLocked := true }
          (e.src.versions.map (fun w => mkUpRec e.src w))).unlockCalls + 1,
      dbIsLocked := true }
  have htargetsD : ((downPairs e.src.versions (e.src.versions.getLast hne)).map
      (fun pr => mkDownRec e.src pr.1 pr.2)).map Migration.targetVersion =
      (downPairs e.src.versions (e.src.versions.getLast hne)).map Prod.snd := by
    rw [List.map_map]
    rfl
  have hmemfst : ∀ pr ∈ downPairs e.src.versions (e.src.versions.getLast hne),
      pr.1 ∈ e.src.versions := by
    intro pr hpr
    have h5 : pr.1 ∈ (downPairs e.src.versions (e.src.versions.getLast hne)).map
        Prod.fst := List.mem_map_of_mem _ hpr
    rw [downPairs_fst] at h5
    rcases List.mem_cons.mp h5 with h6 | h6
    · rw [h6]
      exact List.getLast_mem hne
    · exact List.mem_of_mem_filter (List.mem_reverse.mp h6)
  have hseqD : ((downPairs e.src.versions (e.src.versions.getLast hne)).map
      (fun pr => mkDownRec e.src pr.1 pr.2)).filterMap Migration.body =
      e.src.versions.reverse.map (fun w => "d" ++ toString w) := by
    rw [List.filterMap_map]
    have h7 := filterMap_eq_map_of
      (downPairs e.src.versions (e.src.versions.getLast hne))
      (Migration.body ∘ fun pr => mkDownRec e.src pr.1 pr.2)
      (fun pr => "d" ++ toString pr.1)
      (fun pr hpr => HBd pr.1 (hmemfst pr hpr))
    rw [h7]
    have h8 : (downPairs e.src.versions (e.src.versions.getLast hne)).map
        (fun pr => "d" ++ toString pr.1) =
        ((downPairs e.src.versions (e.src.versions.getLast hne)).map Prod.fst).map
          (fun w => "d" ++ toString w) := by
      rw [List.map_map]
      rfl
    rw [h8, downPairs_fst, filter_lt_getLast SL hne]
    rw [show e.src.versions.getLast hne :: e.src.versions.dropLast.reverse =
      e.src.versions.reverse from (reverse_eq_getLast_cons e.src.versions hne).symm]
  refine ⟨rfl, rfl, ?_, ?_, ?_⟩
  · rw [hfD.2.2.1, htargetsD, downPairs_snd]
    exact List.getLastD_concat _ _ _
  · rw [hfD.2.1, hseqA, hseqD]
  · rw [hfD.2.1, hseqA, hseqD]
    exact palindrome_updown e.src.versions

/-- C2 witness: S1 + S2 — Up then Down over {1,3,4,5,7} from the empty
database ends at NilVersion and the observed payload sequence is the
direction-flipped palindrome u1 u3 u4 u5 u7 d7 d5 d4 d3 d1. -/
theorem C2_witness :
    (Migrate.Up eFix bFix stFix noStop noStop).1 = .ret none ∧
    (Migrate.Down (Migrate.Up eFix bFix stFix noStop noStop).2.1 bFix
        (Migrate.Up eFix bFix stFix noStop noStop).2.2 noStop noStop).1 = .ret none ∧
    (Migrate.Down (Migrate.Up eFix bFix stFix noStop noStop).2.1 bFix
        (Migrate.Up eFix bFix stFix noStop noStop).2.2 noStop noStop).2.2.version = -1 ∧
    (Migrate.Down (Migrate.Up eFix bFix stFix noStop noStop).2.1 bFix
        (Migrate.Up eFix bFix stFix noStop noStop).2.2 noStop
        noStop).2.2.migrationSequence =
      ["u1", "u3", "u4", "u5", "u7", "d7", "d5", "d4", "d3", "d1"] ∧
    ((Migrate.Down (Migrate.Up eFix bFix stFix noStop noStop).2.1 bFix
        (Migrate.Up eFix bFix stFix noStop noStop).2.2 noStop
        noStop).2.2.migrationSequence).reverse.map flipDir =
      (Migrate.Down (Migrate.Up eFix bFix stFix noStop noStop).2.1 bFix
        (Migrate.Up eFix bFix stFix noStop noStop).2.2 noStop
        noStop).2.2.migrationSequence := by
  have h := C2_round_trip eFix bFix stFix rfl rfl rfl rfl rfl (fun t => rfl)
    (by decide)
    (fun w _ => rfl) (fun w _ => rfl)
    (by intro w hw; fin_cases hw <;> rfl)
    (by intro w hw; fin_cases hw <;> rfl)
    (by decide) rfl rfl
  refine ⟨h.1, h.2.1, h.2.2.1, ?_, h.2.2.2.2⟩
  rw [h.2.2.2.1]
  rfl
